import Mathlib

/-!
# get-ppi: image resolution from EXIF / JFIF / PNG metadata

A shallow embedding of `src/index.js`.

* A `DataView` is the list of the bytes it covers; `getUint8`, `getUint16`
  and `getUint32` fail with `JSError.rangeError` exactly when the read does
  not fit in the view, as `DataView.prototype.getUintN` does.
* Offsets are natural numbers: every offset the program computes is a sum of
  unsigned reads and small constants, far below `2 ^ 53`, so the arithmetic
  on them is exact in JavaScript.
* A JavaScript value that the program handles is `undefined` or a Number.
  Every Number of the program comes from unsigned reads through `/`, `*` by a
  positive constant and `Math.round`, so the sign bit is never set: `JSNum`
  holds the non-negative finite doubles (as the rational they denote),
  `Infinity` and `NaN`.  `/` and `*` round the exact result to the nearest
  double, ties to even (IEEE 754 binary64).
-/

namespace GetPpi

/-! ## JavaScript numbers -/

/-- The Numbers of the program: a finite non-negative double, given by the
rational it denotes, `Infinity`, or `NaN`. -/
inductive JSNum where
  | fin (q : ℚ)
  | inf
  | nan
deriving DecidableEq

/-- A JavaScript value of the program: `none` is `undefined`. -/
abbrev JSVal := Option JSNum

/-- The power of two `2 ^ k` for an integer exponent. -/
def pow2 (k : ℤ) : ℚ :=
  if 0 ≤ k then ((2 ^ k.toNat : ℕ) : ℚ) else 1 / ((2 ^ (-k).toNat : ℕ) : ℚ)

/-- Halving `n` until it is below 2, at most `fuel` times. -/
def log2Aux : Nat → Nat → Nat
  | 0, _ => 0
  | fuel + 1, n => if 2 ≤ n then log2Aux fuel (n / 2) + 1 else 0

/-- The position of the leading bit of a positive natural number: the `k`
with `2 ^ k ≤ n < 2 ^ (k + 1)`. -/
def log2Nat (n : Nat) : Nat := log2Aux n n

/-- The binary exponent of a positive rational: the `e` with
`2 ^ e ≤ q < 2 ^ (e + 1)`. -/
def floorLog2 (q : ℚ) : ℤ :=
  let e : ℤ := (log2Nat q.num.toNat : ℤ) - (log2Nat q.den : ℤ)
  if pow2 e ≤ q then e else e - 1

/-- Rounding to the nearest integer, ties to the even one. -/
def halfEven (t : ℚ) : ℤ :=
  let f := ⌊t⌋
  let r := t - f
  if r < 1 / 2 then f else if 1 / 2 < r then f + 1 else if f % 2 = 0 then f else f + 1

/-- The double nearest to a non-negative rational (round to nearest, ties to
even): 53 significant bits, least exponent `-1022` (below it the spacing
stays `2 ^ (-1074)`), and `Infinity` once the rounded value reaches
`2 ^ 1024`. -/
def roundToDouble (q : ℚ) : JSNum :=
  if q ≤ 0 then .fin 0 else
    let e := max (floorLog2 q) (-1022)
    let r := (halfEven (q / pow2 (e - 52)) : ℚ) * pow2 (e - 52)
    if pow2 1024 ≤ r then .inf else .fin r

/-- An unsigned integer read from the view, as a Number (exact below `2 ^ 53`). -/
def JSNum.ofNat (n : Nat) : JSNum := .fin (n : ℚ)

/-- JavaScript `a / b` on non-negative Numbers. -/
def fdiv : JSNum → JSNum → JSNum
  | .nan, _ => .nan
  | _, .nan => .nan
  | .inf, .inf => .nan
  | .inf, .fin _ => .inf
  | .fin _, .inf => .fin 0
  | .fin a, .fin b =>
      if b = 0 then (if a = 0 then .nan else .inf) else roundToDouble (a / b)

/-- JavaScript `a * b` on non-negative Numbers. -/
def fmul : JSNum → JSNum → JSNum
  | .nan, _ => .nan
  | _, .nan => .nan
  | .inf, .inf => .inf
  | .inf, .fin b => if b = 0 then .nan else .inf
  | .fin a, .inf => if a = 0 then .nan else .inf
  | .fin a, .fin b => roundToDouble (a * b)

/-- JavaScript `Math.round` on non-negative Numbers: the nearest integer,
ties upwards. -/
def mathRound : JSNum → JSNum
  | .fin q => .fin (⌊q + 1 / 2⌋ : ℤ)
  | .inf => .inf
  | .nan => .nan

/-- JavaScript `ToNumber` on the values of the program: `undefined` is `NaN`. -/
def toNumber : JSVal → JSNum
  | none => .nan
  | some n => n

/-- JavaScript `a === b` on the values of the program. -/
def strictEq : JSVal → JSVal → Bool
  | none, none => true
  | some .nan, some _ => false
  | some _, some .nan => false
  | some a, some b => decide (a = b)
  | _, _ => false

/-- JavaScript truthiness on the values of the program: `undefined`, `0` and
`NaN` are falsy. -/
def truthy : JSVal → Bool
  | none => false
  | some .nan => false
  | some .inf => true
  | some (.fin q) => decide (q ≠ 0)

/-- JavaScript `a || b` where `b` is a Number. -/
def jsOr (a : JSVal) (b : JSNum) : JSNum :=
  match a with
  | some n => if truthy (some n) then n else b
  | none => b

/-- The literal `2.54`. -/
def lit_2_54 : JSNum := roundToDouble (254 / 100)

/-- The literal `39.37007874015748`. -/
def lit_39_37 : JSNum := roundToDouble (3937007874015748 / 100000000000000)

/-! ## The DataView -/

/-- What the code can throw. -/
inductive JSError where
  | rangeError
  | tiffByteOrder
deriving DecidableEq

deriving instance DecidableEq for Except

abbrev Byte := Fin 256

/-- The bytes a `DataView` covers; `byteLength` is the length of the list. -/
abbrev DataView := List Byte

/-- The byte at an offset, `0` outside the view (never used there). -/
def byteAt (d : DataView) (off : Nat) : Nat := (d.getD off 0).val

/-- The 16-bit unsigned value of the two bytes at an offset, in the given
byte order. -/
def u16At (d : DataView) (off : Nat) (littleEndian : Bool) : Nat :=
  if littleEndian then byteAt d off + 256 * byteAt d (off + 1)
  else 256 * byteAt d off + byteAt d (off + 1)

/-- The 32-bit unsigned value of the four bytes at an offset, in the given
byte order. -/
def u32At (d : DataView) (off : Nat) (littleEndian : Bool) : Nat :=
  if littleEndian then
    byteAt d off + 256 * byteAt d (off + 1) + 65536 * byteAt d (off + 2)
      + 16777216 * byteAt d (off + 3)
  else
    16777216 * byteAt d off + 65536 * byteAt d (off + 1) + 256 * byteAt d (off + 2)
      + byteAt d (off + 3)

/-- The method `getUint8(off)`: a `RangeError` when the byte is outside the view. -/
def getUint8 (d : DataView) (off : Nat) : Except JSError Nat :=
  if off + 1 ≤ d.length then .ok (byteAt d off) else .error .rangeError

/-- The method `getUint16(off, littleEndian)`; the code's calls without the
second argument are big-endian, `littleEndian = false`. -/
def getUint16 (d : DataView) (off : Nat) (littleEndian : Bool) : Except JSError Nat :=
  if off + 2 ≤ d.length then .ok (u16At d off littleEndian) else .error .rangeError

/-- The method `getUint32(off, littleEndian)`. -/
def getUint32 (d : DataView) (off : Nat) (littleEndian : Bool) : Except JSError Nat :=
  if off + 4 ≤ d.length then .ok (u32At d off littleEndian) else .error .rangeError

/-! ## The program -/

def DEFAULT_RESOLUTION : JSNum := .fin 72

def EXIF_MARKER : Nat := 0x45786966
def JFIF_MARKER : Nat := 0x4a464946

def isEXIF (data : DataView) : Except JSError Bool := do
  let a ← getUint16 data 2 false
  if a = 0xffe1 then
    let b ← getUint32 data 6 false
    pure (decide (b = EXIF_MARKER))
  else pure false

def isJFIF (data : DataView) : Except JSError Bool := do
  let b ← getUint32 data 6 false
  pure (decide (b = JFIF_MARKER))

def isPNG (data : DataView) : Except JSError Bool := do
  let a ← getUint8 data 1
  if a = 80 then
    let b ← getUint8 data 2
    if b = 78 then
      let c ← getUint8 data 3
      pure (decide (c = 71))
    else pure false
  else pure false

def isLittleEndian (value : Nat) : Except JSError Bool :=
  if value = 0x4949 then .ok true
  else if value = 0x4d4d then .ok false
  else .error .tiffByteOrder

def getRational (dataView : DataView) (pos : Nat) (littleEndian : Bool) :
    Except JSError JSNum := do
  let start := (← getUint32 dataView (pos + 8) littleEndian) + 12
  let numerator ← getUint32 dataView start littleEndian
  let denominator ← getUint32 dataView (start + 4) littleEndian
  pure (fdiv (JSNum.ofNat numerator) (JSNum.ofNat denominator))

def normalizeResolution (x y unit : JSVal) : JSNum :=
  if !(strictEq x y) then DEFAULT_RESOLUTION
  else
    let resolutionPpi : JSVal :=
      if strictEq unit (some (.fin 2)) then x
      else if strictEq unit (some (.fin 3)) then some (fmul (toNumber x) lit_2_54)
      else if strictEq unit (some (.fin 4)) then
        some (mathRound (fdiv (toNumber x) lit_39_37))
      else none
    jsOr resolutionPpi DEFAULT_RESOLUTION

def getJfifResolution (dataView : DataView) : Except JSError JSNum := do
  let ResolutionUnit := (← getUint8 dataView 13) + 1
  let XResolution ← getUint16 dataView 14 false
  let YResolution ← getUint16 dataView 16 false
  pure (normalizeResolution (some (JSNum.ofNat XResolution)) (some (JSNum.ofNat YResolution))
    (some (JSNum.ofNat ResolutionUnit)))

/-- The variables `XResolution`, `YResolution`, `ResolutionUnit` of a reader. -/
structure Candidate where
  XResolution : JSVal
  YResolution : JSVal
  ResolutionUnit : JSVal
deriving DecidableEq

def Candidate.empty : Candidate := ⟨none, none, none⟩

/-- The body of the `while (i < count)` loop of `getJpgResolution`, up to the
increments: the `switch` on the tag of the entry at `start`. -/
def jpgEntry (dataView : DataView) (littleEndian : Bool) (start : Nat) (c : Candidate) :
    Except JSError Candidate := do
  let tag ← getUint16 dataView start littleEndian
  if tag = 282 then
    let r ← getRational dataView start littleEndian
    pure { c with XResolution := some r }
  else if tag = 283 then
    let r ← getRational dataView start littleEndian
    pure { c with YResolution := some r }
  else if tag = 296 then
    let u ← getUint16 dataView (start + 8) littleEndian
    pure { c with ResolutionUnit := some (JSNum.ofNat u) }
  else pure c

/-- The `while (i < count)` loop of `getJpgResolution`; the first argument is
`count - i`, the number of iterations left. -/
def jpgLoop (dataView : DataView) (littleEndian : Bool) :
    Nat → Nat → Candidate → Except JSError Candidate
  | 0, _, c => .ok c
  | n + 1, start, c => do
      let c' ← jpgEntry dataView littleEndian start c
      jpgLoop dataView littleEndian n (start + 12) c'

def getJpgResolution (dataView : DataView) : Except JSError JSNum := do
  let littleEndian ← isLittleEndian (← getUint16 dataView 12 false)
  let pos := (← getUint32 dataView 16 littleEndian) + 12
  let start := pos + 2
  let count ← getUint16 dataView pos littleEndian
  let c ← jpgLoop dataView littleEndian count start Candidate.empty
  pure (normalizeResolution c.XResolution c.YResolution c.ResolutionUnit)

/-- The chunk type `'pHYs'` as its four character codes. -/
def pHYs : Nat × Nat × Nat × Nat := (112, 72, 89, 115)

/-- One iteration of the `while (pos < dataView.byteLength)` loop of
`getPngResolution`, entered at `pos`: the new `pos` and the new variables. -/
def pngChunk (dataView : DataView) (pos : Nat) (c : Candidate) :
    Except JSError (Nat × Candidate) := do
  let length ← getUint32 dataView pos false
  let pos := pos + 4
  let t0 ← getUint8 dataView pos
  let t1 ← getUint8 dataView (pos + 1)
  let t2 ← getUint8 dataView (pos + 2)
  let t3 ← getUint8 dataView (pos + 3)
  let pos := pos + 4
  if (t0, t1, t2, t3) = pHYs then
    let x ← getUint32 dataView pos false
    let y ← getUint32 dataView (pos + 4) false
    let u ← getUint8 dataView (pos + 8)
    pure (pos + (length + 4),
      ⟨some (JSNum.ofNat x), some (JSNum.ofNat y), some (JSNum.ofNat (u + 3))⟩)
  else
    pure (pos + (length + 4), c)

/-- The `while (pos < dataView.byteLength)` loop of `getPngResolution`, run for
at most `fuel` tests of the loop condition: `none` when the fuel runs out
before the loop is left. -/
def pngLoop (dataView : DataView) : Nat → Nat → Candidate → Option (Except JSError Candidate)
  | 0, _, _ => none
  | fuel + 1, pos, c =>
      if pos < dataView.length then
        match pngChunk dataView pos c with
        | .error e => some (.error e)
        | .ok (pos', c') => pngLoop dataView fuel pos' c'
      else some (.ok c)

/-- The reader `getPngResolution` with a bound on the number of loop tests. -/
def getPngResolutionFuel (fuel : Nat) (dataView : DataView) : Option (Except JSError JSNum) :=
  (pngLoop dataView fuel 8 Candidate.empty).map fun r =>
    r.map fun c => normalizeResolution c.XResolution c.YResolution c.ResolutionUnit

/-- The reader `getPngResolution`: every iteration moves `pos` forward by at
least 12, so `byteLength + 1` tests of the loop condition are enough
(`pngLoop_fuel_enough`). -/
def getPngResolution (dataView : DataView) : Option (Except JSError JSNum) :=
  getPngResolutionFuel (dataView.length + 1) dataView

/-- The body of the `try` block of `getImageResolution`. -/
def tryBlock (dataView : DataView) : Option (Except JSError JSNum) :=
  match isEXIF dataView with
  | .error e => some (.error e)
  | .ok true => some (getJpgResolution dataView)
  | .ok false =>
    match isJFIF dataView with
    | .error e => some (.error e)
    | .ok true => some (getJfifResolution dataView)
    | .ok false =>
      match isPNG dataView with
      | .error e => some (.error e)
      | .ok true => getPngResolution dataView
      | .ok false => some (.ok DEFAULT_RESOLUTION)

/-- The entry point on a byte sequence (`toDataView` of a typed array or an
`ArrayBuffer` is the view of its bytes): `some v` when the call returns `v`;
the `catch` turns every exception of the `try` block into the default. -/
def getImageResolution (data : DataView) : Option JSNum :=
  (tryBlock data).map fun r =>
    match r with
    | .ok v => v
    | .error _ => DEFAULT_RESOLUTION

/-! ## The variant with lenient signature predicates -/

/-- The predicate `isEXIF` made lenient: `false` where `isEXIF` throws. -/
def isEXIFLenient (data : DataView) : Bool :=
  match isEXIF data with
  | .ok b => b
  | .error _ => false

/-- The predicate `isJFIF` made lenient: `false` where `isJFIF` throws. -/
def isJFIFLenient (data : DataView) : Bool :=
  match isJFIF data with
  | .ok b => b
  | .error _ => false

/-- The predicate `isPNG` made lenient: `false` where `isPNG` throws. -/
def isPNGLenient (data : DataView) : Bool :=
  match isPNG data with
  | .ok b => b
  | .error _ => false

/-- The variant of `getImageResolution` in which a signature predicate that
reads outside the buffer counts as not matching and the next predicate is
evaluated; the readers and the `catch` are those of the code. -/
def getImageResolutionLenient (data : DataView) : Option JSNum :=
  let body : Option (Except JSError JSNum) :=
    if isEXIFLenient data then some (getJpgResolution data)
    else if isJFIFLenient data then some (getJfifResolution data)
    else if isPNGLenient data then getPngResolution data
    else some (.ok DEFAULT_RESOLUTION)
  body.map fun r =>
    match r with
    | .ok v => v
    | .error _ => DEFAULT_RESOLUTION

/-! ## Well-formed PNG chunk sequences -/

/-- The four character codes of the type of the chunk that starts at `p`. -/
def chunkType (d : DataView) (p : Nat) : Nat × Nat × Nat × Nat :=
  (byteAt d (p + 4), byteAt d (p + 5), byteAt d (p + 6), byteAt d (p + 7))

/-- The list `ps` holds the starts of the complete chunks (4-byte big-endian
length `L`, 4-byte type, `L` data bytes, 4-byte checksum) that fill the view
from `pos` exactly to its end. -/
def chunksFrom (d : DataView) : Nat → List Nat → Bool
  | pos, [] => decide (pos = d.length)
  | pos, p :: ps =>
      decide (p = pos) && decide (pos + 12 + u32At d pos false ≤ d.length)
        && chunksFrom d (pos + 12 + u32At d pos false) ps

/-- The eight bytes of the PNG signature. -/
def pngSignature : List Byte := [0x89, 0x50, 0x4e, 0x47, 0x0d, 0x0a, 0x1a, 0x0a]

/-- The list `ps` holds the starts of consecutive complete chunks, the first
at `pos`, the last ending at `stop`: the cursor of the walk goes from `pos`
to `stop` over them, unless a read fails on the way. -/
def chunksUpTo (d : DataView) : Nat → List Nat → Nat → Bool
  | pos, [], stop => decide (pos = stop)
  | pos, p :: ps, stop =>
      decide (p = pos) && decide (pos + 12 + u32At d pos false ≤ d.length)
        && chunksUpTo d (pos + 12 + u32At d pos false) ps stop

/-- The number of iterations of the `while (pos < dataView.byteLength)` loop
that `pngLoop` starts from `pos` within `fuel` tests of the loop condition;
an iteration that throws is counted. -/
def pngIterations (dataView : DataView) : Nat → Nat → Candidate → Nat
  | 0, _, _ => 0
  | fuel + 1, pos, c =>
      if pos < dataView.length then
        match pngChunk dataView pos c with
        | .error _ => 1
        | .ok (pos', c') => 1 + pngIterations dataView fuel pos' c'
      else 0

/-! ## Well-formed EXIF directories -/

/-- The start of entry `j` of the directory whose TIFF offset is `ifd`: the
code's `pos + 2 + 12 * j` with `pos = ifd + 12`. -/
def entryAt (ifd j : Nat) : Nat := ifd + 14 + 12 * j

/-- The tag of entry `j`, in the byte order of the file. -/
def tagAt (d : DataView) (le : Bool) (ifd j : Nat) : Nat := u16At d (entryAt ifd j) le

/-- The buffer carries the EXIF signature, the byte-order marker of `le`
(`0x4949` little-endian, `0x4D4D` big-endian), the TIFF offset `ifd` of the
directory at 16 and, at `ifd + 12`, the count of `count` entries, which all
lie inside the buffer. -/
def ExifHeader (d : DataView) (le : Bool) (ifd count : Nat) : Prop :=
  getUint16 d 2 false = .ok 0xffe1 ∧ getUint32 d 6 false = .ok 0x45786966 ∧
  getUint16 d 12 false = .ok (if le then 0x4949 else 0x4d4d) ∧
  getUint32 d 16 le = .ok ifd ∧ getUint16 d (ifd + 12) le = .ok count ∧
  entryAt ifd count ≤ d.length

/-- Entry `j` is the one entry of the directory with the tag `tag`. -/
def OnlyEntry (d : DataView) (le : Bool) (ifd count tag j : Nat) : Prop :=
  j < count ∧ ∀ i < count, tagAt d le ifd i = tag ↔ i = j

/-- No entry of the directory has the tag `tag`. -/
def NoEntry (d : DataView) (le : Bool) (ifd count tag : Nat) : Prop :=
  ∀ i < count, tagAt d le ifd i ≠ tag

/-- The value offset of entry `j` (32 bits at entry + 8, plus 12) points to a
rational inside the buffer with numerator `n` and denominator `dd`. -/
def RationalAt (d : DataView) (le : Bool) (ifd j n dd : Nat) : Prop :=
  getUint32 d (u32At d (entryAt ifd j + 8) le + 12) le = .ok n ∧
  getUint32 d (u32At d (entryAt ifd j + 8) le + 12 + 4) le = .ok dd

instance (d : DataView) (le : Bool) (ifd count : Nat) : Decidable (ExifHeader d le ifd count) := by
  unfold ExifHeader; infer_instance

instance (d : DataView) (le : Bool) (ifd count tag j : Nat) :
    Decidable (OnlyEntry d le ifd count tag j) := by
  unfold OnlyEntry; infer_instance

instance (d : DataView) (le : Bool) (ifd count tag : Nat) :
    Decidable (NoEntry d le ifd count tag) := by
  unfold NoEntry; infer_instance

instance (d : DataView) (le : Bool) (ifd j n dd : Nat) :
    Decidable (RationalAt d le ifd j n dd) := by
  unfold RationalAt; infer_instance

/-- The buffer is an EXIF file, in the byte order `le`, whose directory has
exactly one entry with tag 282, pointing to the rational `xn / xd`, exactly
one entry with tag 283, pointing to the rational `yn / yd`, and either
exactly one entry with tag 296, of 16-bit value `u` (`unit = some u`), or no
entry with tag 296 (`unit = none`); the other entries are arbitrary. -/
def ExifImage (d : DataView) (le : Bool) (xn xd yn yd : Nat) (unit : Option Nat) : Prop :=
  ∃ ifd count ix iy, ExifHeader d le ifd count ∧
    OnlyEntry d le ifd count 282 ix ∧ OnlyEntry d le ifd count 283 iy ∧
    RationalAt d le ifd ix xn xd ∧ RationalAt d le ifd iy yn yd ∧
    match unit with
    | some u => ∃ iu, OnlyEntry d le ifd count 296 iu ∧ u16At d (entryAt ifd iu + 8) le = u
    | none => NoEntry d le ifd count 296

/-! ## Sample buffers -/

/-- A minimal little-endian EXIF file: tags 282 and 283 with the rational
300/1 and tag 296 with the value 2. -/
def exifLE : DataView :=
  [0xff, 0xd8, 0xff, 0xe1, 0, 0, 0x45, 0x78, 0x69, 0x66, 0, 0,
   0x49, 0x49, 42, 0, 8, 0, 0, 0,
   3, 0,
   0x1a, 0x01, 5, 0, 1, 0, 0, 0, 50, 0, 0, 0,
   0x1b, 0x01, 5, 0, 1, 0, 0, 0, 50, 0, 0, 0,
   0x28, 0x01, 3, 0, 1, 0, 0, 0, 2, 0, 0, 0,
   0, 0, 0, 0,
   0x2c, 0x01, 0, 0, 1, 0, 0, 0]

/-- The same directory in big-endian byte order. -/
def exifBE : DataView :=
  [0xff, 0xd8, 0xff, 0xe1, 0, 0, 0x45, 0x78, 0x69, 0x66, 0, 0,
   0x4d, 0x4d, 0, 42, 0, 0, 0, 8,
   0, 3,
   0x01, 0x1a, 0, 5, 0, 0, 0, 1, 0, 0, 0, 50,
   0x01, 0x1b, 0, 5, 0, 0, 0, 1, 0, 0, 0, 50,
   0x01, 0x28, 0, 3, 0, 0, 0, 1, 0, 2, 0, 0,
   0, 0, 0, 0,
   0, 0, 0x01, 0x2c, 0, 0, 0, 1]

/-- A JFIF header with unit byte 1, X = 100 and Y = 200. -/
def jfif100x200 : DataView :=
  [255, 216, 255, 224, 0, 16, 74, 70, 73, 70, 0, 1, 1, 1, 0, 100,
   0, 200, 0, 0]

/-- A little-endian EXIF file: tag 282 with 100/1, tag 283 with 200/1, tag 296 with 2. -/
def exif100x200 : DataView :=
  [255, 216, 255, 225, 0, 0, 69, 120, 105, 102, 0, 0, 73, 73, 42, 0,
   8, 0, 0, 0, 3, 0, 26, 1, 5, 0, 1, 0, 0, 0, 50, 0,
   0, 0, 27, 1, 5, 0, 1, 0, 0, 0, 58, 0, 0, 0, 40, 1,
   3, 0, 1, 0, 0, 0, 2, 0, 0, 0, 0, 0, 0, 0, 100, 0,
   0, 0, 1, 0, 0, 0, 200, 0, 0, 0, 1, 0, 0, 0]

/-- A PNG file: signature, `IHDR`, `pHYs` with X = 100, Y = 200 and unit 1, `IEND`. -/
def png100x200 : DataView :=
  [137, 80, 78, 71, 13, 10, 26, 10, 0, 0, 0, 13, 73, 72, 68, 82,
   0, 0, 0, 1, 0, 0, 0, 1, 8, 2, 0, 0, 0, 0, 0, 0,
   0, 0, 0, 0, 9, 112, 72, 89, 115, 0, 0, 0, 100, 0, 0, 0,
   200, 1, 0, 0, 0, 0, 0, 0, 0, 0, 73, 69, 78, 68, 0, 0,
   0, 0]

/-- A JFIF header with unit byte 0 and X = Y = 96. -/
def jfifUnit0 : DataView :=
  [255, 216, 255, 224, 0, 16, 74, 70, 73, 70, 0, 1, 1, 0, 0, 96,
   0, 96, 0, 0]

/-- A little-endian EXIF file: tags 282 and 283 with 300/1 and no tag 296. -/
def exifNoUnit : DataView :=
  [255, 216, 255, 225, 0, 0, 69, 120, 105, 102, 0, 0, 73, 73, 42, 0,
   8, 0, 0, 0, 2, 0, 26, 1, 5, 0, 1, 0, 0, 0, 38, 0,
   0, 0, 27, 1, 5, 0, 1, 0, 0, 0, 38, 0, 0, 0, 0, 0,
   0, 0, 44, 1, 0, 0, 1, 0, 0, 0]

/-- A big-endian EXIF file: tags 282 and 283 with 300/1 and tag 296 with 1. -/
def exifUnit1 : DataView :=
  [255, 216, 255, 225, 0, 0, 69, 120, 105, 102, 0, 0, 77, 77, 0, 42,
   0, 0, 0, 8, 0, 3, 1, 26, 0, 5, 0, 0, 0, 1, 0, 0,
   0, 50, 1, 27, 0, 5, 0, 0, 0, 1, 0, 0, 0, 50, 1, 40,
   0, 3, 0, 0, 0, 1, 0, 1, 0, 0, 0, 0, 0, 0, 0, 0,
   1, 44, 0, 0, 0, 1]

/-- A little-endian EXIF file: tags 282 and 283 with the rational 1/0 and tag 296 with 2. -/
def exifZeroDen : DataView :=
  [255, 216, 255, 225, 0, 0, 69, 120, 105, 102, 0, 0, 73, 73, 42, 0,
   8, 0, 0, 0, 3, 0, 26, 1, 5, 0, 1, 0, 0, 0, 50, 0,
   0, 0, 27, 1, 5, 0, 1, 0, 0, 0, 50, 0, 0, 0, 40, 1,
   3, 0, 1, 0, 0, 0, 2, 0, 0, 0, 0, 0, 0, 0, 1, 0,
   0, 0, 0, 0, 0, 0]

/-- A big-endian EXIF file: tag 282 with 72/0, tag 283 with 96/0 and tag 296 with 3. -/
def exifZeroDenCm : DataView :=
  [255, 216, 255, 225, 0, 0, 69, 120, 105, 102, 0, 0, 77, 77, 0, 42,
   0, 0, 0, 8, 0, 3, 1, 26, 0, 5, 0, 0, 0, 1, 0, 0,
   0, 50, 1, 27, 0, 5, 0, 0, 0, 1, 0, 0, 0, 58, 1, 40,
   0, 3, 0, 0, 0, 1, 0, 3, 0, 0, 0, 0, 0, 0, 0, 0,
   0, 72, 0, 0, 0, 0, 0, 0, 0, 96, 0, 0, 0, 0]

/-- A PNG file: signature, `IHDR`, `pHYs` with X = Y = 2835 and unit 1, `IEND`. -/
def png2835 : DataView :=
  [137, 80, 78, 71, 13, 10, 26, 10, 0, 0, 0, 13, 73, 72, 68, 82,
   0, 0, 0, 1, 0, 0, 0, 1, 8, 2, 0, 0, 0, 0, 0, 0,
   0, 0, 0, 0, 9, 112, 72, 89, 115, 0, 0, 11, 19, 0, 0, 11,
   19, 1, 0, 0, 0, 0, 0, 0, 0, 0, 73, 69, 78, 68, 0, 0,
   0, 0]

/-- A PNG file: signature, `IHDR`, `pHYs` with X = Y = 2800 and unit 1, `IEND`. -/
def png2800 : DataView :=
  [137, 80, 78, 71, 13, 10, 26, 10, 0, 0, 0, 13, 73, 72, 68, 82,
   0, 0, 0, 1, 0, 0, 0, 1, 8, 2, 0, 0, 0, 0, 0, 0,
   0, 0, 0, 0, 9, 112, 72, 89, 115, 0, 0, 10, 240, 0, 0, 10,
   240, 1, 0, 0, 0, 0, 0, 0, 0, 0, 73, 69, 78, 68, 0, 0,
   0, 0]

/-- A PNG file: signature, `IHDR`, `pHYs` with X = Y = 2900 and unit 1, `IEND`. -/
def png2900 : DataView :=
  [137, 80, 78, 71, 13, 10, 26, 10, 0, 0, 0, 13, 73, 72, 68, 82,
   0, 0, 0, 1, 0, 0, 0, 1, 8, 2, 0, 0, 0, 0, 0, 0,
   0, 0, 0, 0, 9, 112, 72, 89, 115, 0, 0, 11, 84, 0, 0, 11,
   84, 1, 0, 0, 0, 0, 0, 0, 0, 0, 73, 69, 78, 68, 0, 0,
   0, 0]

/-- A buffer with `PNG` at 1 to 3 and `JFIF` at 6 to 9: a JFIF header with
unit byte 1 and X = Y = 96 whose bytes 1 to 3 are overwritten. -/
def jfifPng : DataView :=
  [255, 80, 78, 71, 0, 16, 74, 70, 73, 70, 0, 1, 1, 1, 0, 96,
   0, 96, 0, 0]

/-- A little-endian EXIF file: tag 282 with 300/1, tag 296 with 2, and no tag 283. -/
def exifNoY : DataView :=
  [255, 216, 255, 225, 0, 0, 69, 120, 105, 102, 0, 0, 73, 73, 42, 0,
   8, 0, 0, 0, 2, 0, 26, 1, 5, 0, 1, 0, 0, 0, 38, 0,
   0, 0, 40, 1, 3, 0, 1, 0, 0, 0, 2, 0, 0, 0, 0, 0,
   0, 0, 44, 1, 0, 0, 1, 0, 0, 0]

/-- A little-endian EXIF file cut off inside its directory: the rational 300/1 at 20, the directory at 28 with a count of 4, the entries 282, 283 and 296 (value 2) at 30, 42 and 54, and of the fourth entry only the two tag bytes `00 00` at 66; the buffer has 68 bytes and the declared directory would end at 78. -/
def exifTruncated : DataView :=
  [255, 216, 255, 225, 0, 0, 69, 120, 105, 102, 0, 0, 73, 73, 42, 0,
   16, 0, 0, 0, 44, 1, 0, 0, 1, 0, 0, 0, 4, 0, 26, 1,
   5, 0, 1, 0, 0, 0, 8, 0, 0, 0, 27, 1, 5, 0, 1, 0,
   0, 0, 8, 0, 0, 0, 40, 1, 3, 0, 1, 0, 0, 0, 2, 0,
   0, 0, 0, 0]

/-- A PNG file: signature, `IHDR`, `pHYs` with X = Y = 2835 and unit 1, `IEND`, and after it a second `pHYs` with X = Y = 100 and unit 0. -/
def pngTwoPhys : DataView :=
  [137, 80, 78, 71, 13, 10, 26, 10, 0, 0, 0, 13, 73, 72, 68, 82,
   0, 0, 0, 1, 0, 0, 0, 1, 8, 2, 0, 0, 0, 0, 0, 0,
   0, 0, 0, 0, 9, 112, 72, 89, 115, 0, 0, 11, 19, 0, 0, 11,
   19, 1, 0, 0, 0, 0, 0, 0, 0, 0, 73, 69, 78, 68, 0, 0,
   0, 0, 0, 0, 0, 9, 112, 72, 89, 115, 0, 0, 0, 100, 0, 0,
   0, 100, 0, 0, 0, 0, 0]

/-- The PNG file `png2900`, which gives 74, followed by three stray bytes. -/
def pngStray : DataView :=
  [137, 80, 78, 71, 13, 10, 26, 10, 0, 0, 0, 13, 73, 72, 68, 82,
   0, 0, 0, 1, 0, 0, 0, 1, 8, 2, 0, 0, 0, 0, 0, 0,
   0, 0, 0, 0, 9, 112, 72, 89, 115, 0, 0, 11, 84, 0, 0, 11,
   84, 1, 0, 0, 0, 0, 0, 0, 0, 0, 73, 69, 78, 68, 0, 0,
   0, 0, 0, 0, 0]

/-- A PNG file: signature, `IHDR`, `pHYs` with X = Y = 100 and unit 0, `IEND`. -/
def png100unit0 : DataView :=
  [137, 80, 78, 71, 13, 10, 26, 10, 0, 0, 0, 13, 73, 72, 68, 82,
   0, 0, 0, 1, 0, 0, 0, 1, 8, 2, 0, 0, 0, 0, 0, 0,
   0, 0, 0, 0, 9, 112, 72, 89, 115, 0, 0, 0, 100, 0, 0, 0,
   100, 0, 0, 0, 0, 0, 0, 0, 0, 0, 73, 69, 78, 68, 0, 0,
   0, 0]

/-- A PNG file: signature, `IHDR`, `pHYs` with X = Y = 300 and unit 2, `IEND`. -/
def png300unit2 : DataView :=
  [137, 80, 78, 71, 13, 10, 26, 10, 0, 0, 0, 13, 73, 72, 68, 82,
   0, 0, 0, 1, 0, 0, 0, 1, 8, 2, 0, 0, 0, 0, 0, 0,
   0, 0, 0, 0, 9, 112, 72, 89, 115, 0, 0, 1, 44, 0, 0, 1,
   44, 2, 0, 0, 0, 0, 0, 0, 0, 0, 73, 69, 78, 68, 0, 0,
   0, 0]

/-- The file `exifTruncated` without its last two bytes: the tag of the fourth declared entry is outside the buffer. -/
def exifCountPastEnd : DataView :=
  [255, 216, 255, 225, 0, 0, 69, 120, 105, 102, 0, 0, 73, 73, 42, 0,
   16, 0, 0, 0, 44, 1, 0, 0, 1, 0, 0, 0, 4, 0, 26, 1,
   5, 0, 1, 0, 0, 0, 8, 0, 0, 0, 27, 1, 5, 0, 1, 0,
   0, 0, 8, 0, 0, 0, 40, 1, 3, 0, 1, 0, 0, 0, 2, 0,
   0, 0]

/-- A little-endian EXIF file: tag 282 with 4294967295/4294967294, tag 283 with
4294967294/4294967293, two different rationals whose double quotients are both
`1 + 2 ^ (-32)`, and tag 296 with 2. -/
def exifNearEq : DataView :=
  [255, 216, 255, 225, 0, 0, 69, 120, 105, 102, 0, 0, 73, 73, 42, 0,
   8, 0, 0, 0, 3, 0, 26, 1, 5, 0, 1, 0, 0, 0, 50, 0,
   0, 0, 27, 1, 5, 0, 1, 0, 0, 0, 58, 0, 0, 0, 40, 1,
   3, 0, 1, 0, 0, 0, 2, 0, 0, 0, 0, 0, 0, 0, 255, 255,
   255, 255, 254, 255, 255, 255, 254, 255, 255, 255, 253, 255, 255, 255]

/-! ## Rounding to a double -/

theorem pow2_eq_zpow (k : ℤ) : pow2 k = (2 : ℚ) ^ k := by
  unfold pow2
  split
  · rename_i h
    obtain ⟨n, rfl⟩ := Int.eq_ofNat_of_zero_le h
    simp
  · rename_i h
    push_neg at h
    obtain ⟨n, hn⟩ := Int.eq_ofNat_of_zero_le (show 0 ≤ -k by omega)
    have hk : k = -(n : ℤ) := by omega
    subst hk
    simp

theorem pow2_pos (k : ℤ) : 0 < pow2 k := by
  rw [pow2_eq_zpow]; positivity

theorem pow2_le_pow2 {a b : ℤ} (h : a ≤ b) : pow2 a ≤ pow2 b := by
  rw [pow2_eq_zpow, pow2_eq_zpow]
  exact zpow_le_zpow_right₀ (by norm_num) h

theorem pow2_add (a b : ℤ) : pow2 (a + b) = pow2 a * pow2 b := by
  simp only [pow2_eq_zpow]
  exact zpow_add₀ (by norm_num) a b

theorem log2Aux_spec : ∀ (fuel n : Nat), 0 < n → n ≤ fuel →
    2 ^ log2Aux fuel n ≤ n ∧ n < 2 ^ (log2Aux fuel n + 1) := by
  intro fuel
  induction fuel with
  | zero => intro n h0 h; omega
  | succ f ih =>
    intro n h0 h
    unfold log2Aux
    by_cases h2 : 2 ≤ n
    · simp only [h2, if_true]
      obtain ⟨ha, hb⟩ := ih (n / 2) (by omega) (by omega)
      rw [pow_succ, pow_succ]
      rw [pow_succ] at hb
      omega
    · simp only [h2, if_false]
      omega

theorem log2Nat_spec {n : Nat} (h : 0 < n) :
    2 ^ log2Nat n ≤ n ∧ n < 2 ^ (log2Nat n + 1) :=
  log2Aux_spec n n h (le_refl n)


theorem pow2_natCast (n : Nat) : pow2 (n : ℤ) = (2 : ℚ) ^ n := by
  rw [pow2_eq_zpow, zpow_natCast]

theorem pow2_sub (a b : ℤ) : pow2 (a - b) = pow2 a / pow2 b := by
  simp only [pow2_eq_zpow]
  exact zpow_sub₀ (by norm_num) a b

theorem floorLog2_spec {q : ℚ} (hq : 0 < q) :
    pow2 (floorLog2 q) ≤ q ∧ q < pow2 (floorLog2 q + 1) := by
  have hnum : 0 < q.num := Rat.num_pos.mpr hq
  obtain ⟨a, ha⟩ := Int.eq_ofNat_of_zero_le hnum.le
  have ha0 : 0 < a := by omega
  have hb0 : 0 < q.den := q.den_pos
  generalize hb : q.den = b at hb0
  obtain ⟨hla, hua⟩ := log2Nat_spec ha0
  obtain ⟨hlb, hub⟩ := log2Nat_spec hb0
  have hqa : q = (a : ℚ) / (b : ℚ) := by
    conv_lhs => rw [← Rat.num_div_den q]
    rw [ha, hb]; simp
  have hbq : (0 : ℚ) < (b : ℚ) := by exact_mod_cast hb0
  have hla' : (2 : ℚ) ^ log2Nat a ≤ (a : ℚ) := by exact_mod_cast hla
  have hua' : (a : ℚ) < (2 : ℚ) ^ (log2Nat a + 1) := by exact_mod_cast hua
  have hlb' : (2 : ℚ) ^ log2Nat b ≤ (b : ℚ) := by exact_mod_cast hlb
  have hub' : (b : ℚ) < (2 : ℚ) ^ (log2Nat b + 1) := by exact_mod_cast hub
  have hpa : (0 : ℚ) < (2 : ℚ) ^ log2Nat a := by positivity
  have hpb : (0 : ℚ) < (2 : ℚ) ^ log2Nat b := by positivity
  have hA : (0 : ℚ) < (a : ℚ) := by exact_mod_cast ha0
  have htoNat : q.num.toNat = a := by rw [ha]; simp
  unfold floorLog2
  simp only [htoNat, hb]
  split
  · rename_i h
    refine ⟨h, ?_⟩
    rw [show ((log2Nat a : ℤ) - (log2Nat b : ℤ) + 1) = ((log2Nat a + 1 : ℕ) : ℤ) - (log2Nat b : ℤ) by push_cast; ring]
    rw [pow2_sub, pow2_natCast, pow2_natCast, hqa, div_lt_div_iff₀ hbq hpb]
    calc (a : ℚ) * 2 ^ log2Nat b < 2 ^ (log2Nat a + 1) * 2 ^ log2Nat b := by
          exact mul_lt_mul_of_pos_right hua' hpb
      _ ≤ 2 ^ (log2Nat a + 1) * (b : ℚ) := by
          exact mul_le_mul_of_nonneg_left hlb' (by positivity)
  · rename_i h
    push_neg at h
    refine ⟨?_, by simpa using h⟩
    rw [show ((log2Nat a : ℤ) - (log2Nat b : ℤ) - 1) = (log2Nat a : ℤ) - ((log2Nat b + 1 : ℕ) : ℤ) by push_cast; ring]
    rw [pow2_sub, pow2_natCast, pow2_natCast]
    conv_rhs => rw [hqa]
    rw [div_le_div_iff₀ (by positivity) hbq]
    calc (2 : ℚ) ^ log2Nat a * (b : ℚ) ≤ (a : ℚ) * (b : ℚ) := by
          exact mul_le_mul_of_nonneg_right hla' hbq.le
      _ ≤ (a : ℚ) * 2 ^ (log2Nat b + 1) := by
          exact mul_le_mul_of_nonneg_left hub'.le hA.le

theorem halfEven_bounds (t : ℚ) : (⌊t⌋ : ℤ) ≤ halfEven t ∧ halfEven t ≤ ⌊t⌋ + 1 := by
  unfold halfEven
  simp only
  split
  · omega
  · split
    · omega
    · split <;> omega

theorem roundToDouble_ne_nan (q : ℚ) : roundToDouble q ≠ .nan := by
  unfold roundToDouble
  split
  · simp
  · simp only
    split <;> simp

/-- Rounding a rational between `2 ^ (-1074)` and `2 ^ 1023` gives a finite,
strictly positive double. -/
theorem roundToDouble_pos {q : ℚ} (hlo : pow2 (-1074) ≤ q) (hhi : q < pow2 1023) :
    ∃ r : ℚ, roundToDouble q = .fin r ∧ 0 < r := by
  have hq : 0 < q := lt_of_lt_of_le (pow2_pos _) hlo
  obtain ⟨hfl, -⟩ := floorLog2_spec hq
  set e := max (floorLog2 q) (-1022) with he
  have hulp : pow2 (e - 52) ≤ q := by
    rcases le_total (floorLog2 q) (-1022) with h | h
    · rw [he, max_eq_right h]
      exact hlo
    · rw [he, max_eq_left h]
      exact le_trans (pow2_le_pow2 (by omega)) hfl
  have hup : 0 < pow2 (e - 52) := pow2_pos _
  have ht : 1 ≤ q / pow2 (e - 52) := by
    rw [le_div_iff₀ hup]; linarith
  obtain ⟨hm1, hm2⟩ := halfEven_bounds (q / pow2 (e - 52))
  have hfloor : (1 : ℤ) ≤ ⌊q / pow2 (e - 52)⌋ := Int.le_floor.mpr (by exact_mod_cast ht)
  have hmpos : (0 : ℚ) < (halfEven (q / pow2 (e - 52)) : ℚ) := by
    exact_mod_cast (show (0 : ℤ) < halfEven (q / pow2 (e - 52)) by omega)
  have hmle : (halfEven (q / pow2 (e - 52)) : ℚ) ≤ q / pow2 (e - 52) + 1 := by
    have h1 : (halfEven (q / pow2 (e - 52)) : ℚ) ≤ ((⌊q / pow2 (e - 52)⌋ + 1 : ℤ) : ℚ) := by
      exact_mod_cast hm2
    have h2 : ((⌊q / pow2 (e - 52)⌋ : ℤ) : ℚ) ≤ q / pow2 (e - 52) := Int.floor_le _
    push_cast at h1
    linarith
  have hr : (halfEven (q / pow2 (e - 52)) : ℚ) * pow2 (e - 52) < pow2 1024 := by
    calc (halfEven (q / pow2 (e - 52)) : ℚ) * pow2 (e - 52)
        ≤ (q / pow2 (e - 52) + 1) * pow2 (e - 52) :=
          mul_le_mul_of_nonneg_right hmle hup.le
      _ = q + pow2 (e - 52) := by field_simp
      _ ≤ q + q := by linarith
      _ < pow2 1023 + pow2 1023 := by linarith
      _ = pow2 1024 := by
          rw [show (1024 : ℤ) = 1023 + 1 by norm_num, pow2_add]
          have : pow2 1 = 2 := by simp [pow2]
          rw [this]; ring
  refine ⟨(halfEven (q / pow2 (e - 52)) : ℚ) * pow2 (e - 52), ?_, by positivity⟩
  unfold roundToDouble
  rw [if_neg (not_le.mpr hq)]
  simp only [← he]
  rw [if_neg (not_le.mpr hr)]

/-! ## Reads -/

theorem getUint8_of_le {d : DataView} {off : Nat} (h : off + 1 ≤ d.length) :
    getUint8 d off = .ok (byteAt d off) := by
  simp [getUint8, h]

theorem getUint8_of_lt {d : DataView} {off : Nat} (h : d.length < off + 1) :
    getUint8 d off = .error .rangeError := by
  simp [getUint8, Nat.not_le.mpr h]

theorem getUint16_of_le {d : DataView} {off : Nat} {le : Bool} (h : off + 2 ≤ d.length) :
    getUint16 d off le = .ok (u16At d off le) := by
  simp [getUint16, h]

theorem getUint16_of_lt {d : DataView} {off : Nat} {le : Bool} (h : d.length < off + 2) :
    getUint16 d off le = .error .rangeError := by
  simp [getUint16, Nat.not_le.mpr h]

theorem getUint32_of_le {d : DataView} {off : Nat} {le : Bool} (h : off + 4 ≤ d.length) :
    getUint32 d off le = .ok (u32At d off le) := by
  simp [getUint32, h]

theorem getUint32_of_lt {d : DataView} {off : Nat} {le : Bool} (h : d.length < off + 4) :
    getUint32 d off le = .error .rangeError := by
  simp [getUint32, Nat.not_le.mpr h]

theorem getUint8_ok_iff {d : DataView} {off v : Nat} :
    getUint8 d off = .ok v ↔ off + 1 ≤ d.length ∧ byteAt d off = v := by
  unfold getUint8
  split <;> simp [*]

theorem getUint16_ok_iff {d : DataView} {off v : Nat} {le : Bool} :
    getUint16 d off le = .ok v ↔ off + 2 ≤ d.length ∧ u16At d off le = v := by
  unfold getUint16
  split <;> simp [*]

theorem getUint32_ok_iff {d : DataView} {off v : Nat} {le : Bool} :
    getUint32 d off le = .ok v ↔ off + 4 ≤ d.length ∧ u32At d off le = v := by
  unfold getUint32
  split <;> simp [*]

theorem byteAt_lt (d : DataView) (off : Nat) : byteAt d off < 256 :=
  (d.getD off 0).isLt

/-! ## The three signature predicates -/

theorem isEXIF_eq_true_iff (d : DataView) :
    isEXIF d = .ok true ↔
      getUint16 d 2 false = .ok 0xffe1 ∧ getUint32 d 6 false = .ok EXIF_MARKER := by
  unfold isEXIF
  cases h1 : getUint16 d 2 false with
  | error e => simp [bind, Except.bind]
  | ok a =>
    by_cases ha : a = 0xffe1
    · cases h2 : getUint32 d 6 false with
      | error e => simp [bind, Except.bind, ha]
      | ok b => simp [bind, Except.bind, ha, pure, Except.pure]
    · simp [bind, Except.bind, ha, pure, Except.pure]

theorem isJFIF_eq_true_iff (d : DataView) :
    isJFIF d = .ok true ↔ getUint32 d 6 false = .ok JFIF_MARKER := by
  unfold isJFIF
  cases h2 : getUint32 d 6 false with
  | error e => simp [bind, Except.bind]
  | ok b => simp [bind, Except.bind, pure, Except.pure]

theorem isPNG_eq_true_iff (d : DataView) :
    isPNG d = .ok true ↔
      getUint8 d 1 = .ok 80 ∧ getUint8 d 2 = .ok 78 ∧ getUint8 d 3 = .ok 71 := by
  unfold isPNG
  cases h1 : getUint8 d 1 with
  | error e => simp [bind, Except.bind]
  | ok a =>
    by_cases ha : a = 80
    · cases h2 : getUint8 d 2 with
      | error e => simp [bind, Except.bind, ha]
      | ok b =>
        by_cases hb : b = 78
        · cases h3 : getUint8 d 3 with
          | error e => simp [bind, Except.bind, ha, hb]
          | ok c => simp [bind, Except.bind, ha, hb, pure, Except.pure]
        · simp [bind, Except.bind, ha, hb, pure, Except.pure]
    · simp [bind, Except.bind, ha, pure, Except.pure]

/-! ## The PNG loop always leaves within its fuel -/

theorem pngChunk_pos {d : DataView} {pos pos' : Nat} {c c' : Candidate}
    (h : pngChunk d pos c = .ok (pos', c')) :
    pos' = pos + 12 + u32At d pos false ∧ pos + 8 ≤ d.length := by
  unfold pngChunk at h
  cases h0 : getUint32 d pos false with
  | error e => simp [h0, bind, Except.bind] at h
  | ok len =>
    cases h1 : getUint8 d (pos + 4) with
    | error e => simp [h0, h1, bind, Except.bind] at h
    | ok t0 =>
    cases h2 : getUint8 d (pos + 4 + 1) with
    | error e => simp [h0, h1, h2, bind, Except.bind] at h
    | ok t1 =>
    cases h3 : getUint8 d (pos + 4 + 2) with
    | error e => simp [h0, h1, h2, h3, bind, Except.bind] at h
    | ok t2 =>
    cases h4 : getUint8 d (pos + 4 + 3) with
    | error e => simp [h0, h1, h2, h3, h4, bind, Except.bind] at h
    | ok t3 =>
      have hlen := (getUint32_ok_iff.mp h0).2
      have hb := (getUint8_ok_iff.mp h4).1
      simp only [h0, h1, h2, h3, h4, bind, Except.bind, pure, Except.pure] at h
      split at h
      · cases hx : getUint32 d (pos + 4 + 4) false with
        | error e => simp [hx] at h
        | ok x =>
        cases hy : getUint32 d (pos + 4 + 4 + 4) false with
        | error e => simp [hx, hy] at h
        | ok y =>
        cases hu : getUint8 d (pos + 4 + 4 + 8) with
        | error e => simp [hx, hy, hu] at h
        | ok u =>
          simp only [hx, hy, hu, Except.ok.injEq, Prod.mk.injEq] at h
          omega
      · simp only [Except.ok.injEq, Prod.mk.injEq] at h
        omega

theorem pngLoop_fuel_enough (d : DataView) :
    ∀ (fuel pos : Nat) (c : Candidate), d.length - pos < fuel →
      ∃ r, pngLoop d fuel pos c = some r := by
  intro fuel
  induction fuel with
  | zero => intro pos c h; omega
  | succ n ih =>
    intro pos c h
    unfold pngLoop
    by_cases hlt : pos < d.length
    · simp only [hlt, if_true]
      cases hc : pngChunk d pos c with
      | error e => exact ⟨_, rfl⟩
      | ok pc =>
        obtain ⟨pos', c'⟩ := pc
        have hp := (pngChunk_pos hc).1
        simp only
        exact ih pos' c' (by omega)
    · simp only [hlt, if_false]
      exact ⟨_, rfl⟩

theorem getPngResolution_returns (d : DataView) : ∃ r, getPngResolution d = some r := by
  obtain ⟨r, hr⟩ := pngLoop_fuel_enough d (d.length + 1) 8 Candidate.empty (by omega)
  refine ⟨r.map fun c => normalizeResolution c.XResolution c.YResolution c.ResolutionUnit, ?_⟩
  simp [getPngResolution, getPngResolutionFuel, hr]

theorem tryBlock_returns (d : DataView) : ∃ r, tryBlock d = some r := by
  unfold tryBlock
  cases isEXIF d with
  | error e => exact ⟨_, rfl⟩
  | ok b =>
    cases b with
    | true => exact ⟨_, rfl⟩
    | false =>
      cases isJFIF d with
      | error e => exact ⟨_, rfl⟩
      | ok b =>
        cases b with
        | true => exact ⟨_, rfl⟩
        | false =>
          cases isPNG d with
          | error e => exact ⟨_, rfl⟩
          | ok b =>
            cases b with
            | true => exact getPngResolution_returns d
            | false => exact ⟨_, rfl⟩

theorem getImageResolution_of_error {d : DataView} {e : JSError}
    (h : tryBlock d = some (.error e)) : getImageResolution d = some DEFAULT_RESOLUTION := by
  simp [getImageResolution, h]

theorem tryBlock_of_isEXIF_error {d : DataView} {e : JSError} (h : isEXIF d = .error e) :
    tryBlock d = some (.error e) := by
  simp [tryBlock, h]

theorem tryBlock_of_isEXIF {d : DataView} (h : isEXIF d = .ok true) :
    tryBlock d = some (getJpgResolution d) := by
  simp [tryBlock, h]

theorem tryBlock_of_isJFIF_error {d : DataView} {e : JSError} (h1 : isEXIF d = .ok false)
    (h : isJFIF d = .error e) : tryBlock d = some (.error e) := by
  simp [tryBlock, h1, h]

theorem tryBlock_of_isJFIF {d : DataView} (h1 : isEXIF d = .ok false)
    (h : isJFIF d = .ok true) : tryBlock d = some (getJfifResolution d) := by
  simp [tryBlock, h1, h]

theorem tryBlock_of_isPNG_error {d : DataView} {e : JSError} (h1 : isEXIF d = .ok false)
    (h2 : isJFIF d = .ok false) (h : isPNG d = .error e) : tryBlock d = some (.error e) := by
  simp [tryBlock, h1, h2, h]

theorem tryBlock_of_isPNG {d : DataView} (h1 : isEXIF d = .ok false)
    (h2 : isJFIF d = .ok false) (h : isPNG d = .ok true) :
    tryBlock d = getPngResolution d := by
  simp [tryBlock, h1, h2, h]

theorem tryBlock_of_none {d : DataView} (h1 : isEXIF d = .ok false)
    (h2 : isJFIF d = .ok false) (h : isPNG d = .ok false) :
    tryBlock d = some (.ok DEFAULT_RESOLUTION) := by
  simp [tryBlock, h1, h2, h]

/-! ## C1: the entry point never raises -/

/-- C1: on every byte sequence `getImageResolution` returns a Number, and every
exception of a signature predicate (`isEXIF`, `isJFIF`, `isPNG`) or of a
reader (`getJpgResolution`, `getJfifResolution`, `getPngResolution`), at the
place where the `try` block runs it, becomes the result 72. -/
theorem getImageResolution_never_raises (d : DataView) :
    (∃ v : JSNum, getImageResolution d = some v) ∧
    (∀ e, isEXIF d = .error e → getImageResolution d = some (.fin 72)) ∧
    (∀ e, isEXIF d = .ok true → getJpgResolution d = .error e →
      getImageResolution d = some (.fin 72)) ∧
    (∀ e, isEXIF d = .ok false → isJFIF d = .error e →
      getImageResolution d = some (.fin 72)) ∧
    (∀ e, isEXIF d = .ok false → isJFIF d = .ok true → getJfifResolution d = .error e →
      getImageResolution d = some (.fin 72)) ∧
    (∀ e, isEXIF d = .ok false → isJFIF d = .ok false → isPNG d = .error e →
      getImageResolution d = some (.fin 72)) ∧
    (∀ e, isEXIF d = .ok false → isJFIF d = .ok false → isPNG d = .ok true →
      getPngResolution d = some (.error e) → getImageResolution d = some (.fin 72)) := by
  refine ⟨?_, ?_, ?_, ?_, ?_, ?_, ?_⟩
  · obtain ⟨r, hr⟩ := tryBlock_returns d
    exact ⟨_, by rw [getImageResolution, hr]; rfl⟩
  · intro e h
    exact getImageResolution_of_error (tryBlock_of_isEXIF_error h)
  · intro e h hr
    exact getImageResolution_of_error ((tryBlock_of_isEXIF h).trans (by rw [hr]))
  · intro e h1 h
    exact getImageResolution_of_error (tryBlock_of_isJFIF_error h1 h)
  · intro e h1 h hr
    exact getImageResolution_of_error ((tryBlock_of_isJFIF h1 h).trans (by rw [hr]))
  · intro e h1 h2 h
    exact getImageResolution_of_error (tryBlock_of_isPNG_error h1 h2 h)
  · intro e h1 h2 h hr
    exact getImageResolution_of_error ((tryBlock_of_isPNG h1 h2 h).trans hr)

/-- C1, witness: the EXIF signature followed by a byte-order marker that is
neither `II` nor `MM` makes `getJpgResolution` throw, and the result is 72. -/
theorem getImageResolution_never_raises_witness :
    getJpgResolution [0xff, 0xd8, 0xff, 0xe1, 0, 16, 0x45, 0x78, 0x69, 0x66, 0, 0, 0x41, 0x42]
        = .error .tiffByteOrder ∧
      getImageResolution [0xff, 0xd8, 0xff, 0xe1, 0, 16, 0x45, 0x78, 0x69, 0x66, 0, 0, 0x41, 0x42]
        = some (.fin 72) :=
  ⟨by decide, (getImageResolution_never_raises _).2.2.1 .tiffByteOrder (by decide) (by decide)⟩

/-! ## C3: the default fallback -/

/-- C3: when none of the three signature predicates holds, that is when it is
not the case that the 16 bits at 2 are `0xFFE1` and the 32 bits at 6 are
`Exif`, the 32 bits at 6 are not `JFIF`, and the bytes 1 to 3 are not `PNG`,
the result is exactly 72. -/
theorem default_fallback (d : DataView)
    (hExif : ¬ (getUint16 d 2 false = .ok 0xffe1 ∧ getUint32 d 6 false = .ok 0x45786966))
    (hJfif : ¬ (getUint32 d 6 false = .ok 0x4a464946))
    (hPng : ¬ (getUint8 d 1 = .ok 80 ∧ getUint8 d 2 = .ok 78 ∧ getUint8 d 3 = .ok 71)) :
    getImageResolution d = some (.fin 72) := by
  have h1 : isEXIF d ≠ .ok true := fun h => hExif ((isEXIF_eq_true_iff d).mp h)
  have h2 : isJFIF d ≠ .ok true := fun h => hJfif ((isJFIF_eq_true_iff d).mp h)
  have h3 : isPNG d ≠ .ok true := fun h => hPng ((isPNG_eq_true_iff d).mp h)
  cases hE : isEXIF d with
  | error e => exact getImageResolution_of_error (tryBlock_of_isEXIF_error hE)
  | ok b =>
    cases b with
    | true => exact absurd hE h1
    | false =>
      cases hJ : isJFIF d with
      | error e => exact getImageResolution_of_error (tryBlock_of_isJFIF_error hE hJ)
      | ok b =>
        cases b with
        | true => exact absurd hJ h2
        | false =>
          cases hP : isPNG d with
          | error e => exact getImageResolution_of_error (tryBlock_of_isPNG_error hE hJ hP)
          | ok b =>
            cases b with
            | true => exact absurd hP h3
            | false =>
              rw [getImageResolution, tryBlock_of_none hE hJ hP]
              rfl

/-- C3, witness: the twelve bytes `GIF89a` and six more match no signature. -/
theorem default_fallback_witness :
    getImageResolution [0x47, 0x49, 0x46, 0x38, 0x39, 0x61, 1, 0, 1, 0, 0, 0] = some (.fin 72) :=
  default_fallback _ (by decide) (by decide) (by decide)

/-! ## C10: truncated buffers -/

/-- C10: every buffer shorter than 10 bytes, the empty one included, gives 72
and no exception. -/
theorem truncated_buffer (d : DataView) (h : d.length < 10) :
    getImageResolution d = some (.fin 72) := by
  have hJ : isJFIF d = .error .rangeError := by
    simp [isJFIF, getUint32_of_lt (show d.length < 6 + 4 by omega), bind, Except.bind]
  cases hE : isEXIF d with
  | error e => exact getImageResolution_of_error (tryBlock_of_isEXIF_error hE)
  | ok b =>
    cases b with
    | true =>
      have := (getUint32_ok_iff.mp ((isEXIF_eq_true_iff d).mp hE).2).1
      omega
    | false => exact getImageResolution_of_error (tryBlock_of_isJFIF_error hE hJ)

/-- C10, witness: the first four bytes of a JPEG EXIF signature, and the empty
buffer. -/
theorem truncated_buffer_witness :
    getImageResolution [0xff, 0xd8, 0xff, 0xe1] = some (.fin 72) ∧
      getImageResolution [] = some (.fin 72) :=
  ⟨truncated_buffer _ (by decide), truncated_buffer _ (by decide)⟩

/-! ## The normalizer -/

theorem strictEq_ofNat (a b : Nat) :
    strictEq (some (JSNum.ofNat a)) (some (JSNum.ofNat b)) = decide (a = b) := by
  simp [strictEq, JSNum.ofNat]

theorem strictEq_fin (a b : ℚ) :
    strictEq (some (.fin a)) (some (.fin b)) = decide (a = b) := by
  simp [strictEq]

theorem strictEq_eq_true_of_fin {u : JSVal} {q : ℚ} :
    strictEq u (some (.fin q)) = true ↔ u = some (.fin q) := by
  cases u with
  | none => simp [strictEq]
  | some a => cases a <;> simp [strictEq]

theorem truthy_ofNat (n : Nat) : truthy (some (JSNum.ofNat n)) = decide (n ≠ 0) := by
  simp [truthy, JSNum.ofNat]

theorem normalizeResolution_of_ne {x y : JSVal} (unit : JSVal) (h : strictEq x y = false) :
    normalizeResolution x y unit = DEFAULT_RESOLUTION := by
  simp [normalizeResolution, h]

theorem normalizeResolution_unit2 {x y : JSVal} (h : strictEq x y = true) :
    normalizeResolution x y (some (.fin 2)) = jsOr x DEFAULT_RESOLUTION := by
  simp [normalizeResolution, h, strictEq_fin]

theorem normalizeResolution_unit3 {x y : JSVal} (h : strictEq x y = true) :
    normalizeResolution x y (some (.fin 3)) =
      jsOr (some (fmul (toNumber x) lit_2_54)) DEFAULT_RESOLUTION := by
  simp [normalizeResolution, h, strictEq_fin]

theorem normalizeResolution_unit4 {x y : JSVal} (h : strictEq x y = true) :
    normalizeResolution x y (some (.fin 4)) =
      jsOr (some (mathRound (fdiv (toNumber x) lit_39_37))) DEFAULT_RESOLUTION := by
  simp [normalizeResolution, h, strictEq_fin]

theorem normalizeResolution_unmapped (x y : JSVal) {unit : JSVal}
    (h2 : unit ≠ some (.fin 2)) (h3 : unit ≠ some (.fin 3)) (h4 : unit ≠ some (.fin 4)) :
    normalizeResolution x y unit = DEFAULT_RESOLUTION := by
  have e2 : strictEq unit (some (.fin 2)) = false := by
    rw [← Bool.not_eq_true, strictEq_eq_true_of_fin]; exact h2
  have e3 : strictEq unit (some (.fin 3)) = false := by
    rw [← Bool.not_eq_true, strictEq_eq_true_of_fin]; exact h3
  have e4 : strictEq unit (some (.fin 4)) = false := by
    rw [← Bool.not_eq_true, strictEq_eq_true_of_fin]; exact h4
  unfold normalizeResolution
  split
  · rfl
  · simp [e2, e3, e4, jsOr]

/-! ## The JFIF reader -/

theorem isEXIF_eq_false_of {d : DataView} {b : Nat} (h : getUint32 d 6 false = .ok b)
    (hb : b ≠ EXIF_MARKER) : isEXIF d = .ok false := by
  have hlen := (getUint32_ok_iff.mp h).1
  unfold isEXIF
  rw [getUint16_of_le (show 2 + 2 ≤ d.length by omega)]
  by_cases ha : u16At d 2 false = 0xffe1
  · simp [bind, Except.bind, ha, h, hb, pure, Except.pure]
  · simp [bind, Except.bind, ha, pure, Except.pure]

theorem isJFIF_eq_false_of {d : DataView} {b : Nat} (h : getUint32 d 6 false = .ok b)
    (hb : b ≠ JFIF_MARKER) : isJFIF d = .ok false := by
  simp [isJFIF, bind, Except.bind, h, hb, pure, Except.pure]

theorem getJfifResolution_of {d : DataView} {u x y : Nat} (hu : getUint8 d 13 = .ok u)
    (hx : getUint16 d 14 false = .ok x) (hy : getUint16 d 16 false = .ok y) :
    getJfifResolution d = .ok (normalizeResolution (some (JSNum.ofNat x))
      (some (JSNum.ofNat y)) (some (JSNum.ofNat (u + 1)))) := by
  simp [getJfifResolution, bind, Except.bind, hu, hx, hy, pure, Except.pure]

/-- The result on a buffer that carries the JFIF tag is the normalizer's, on
the fields at 13, 14 and 16. -/
theorem getImageResolution_jfif {d : DataView} {u x y : Nat}
    (hsig : getUint32 d 6 false = .ok 0x4a464946) (hu : getUint8 d 13 = .ok u)
    (hx : getUint16 d 14 false = .ok x) (hy : getUint16 d 16 false = .ok y) :
    getImageResolution d = some (normalizeResolution (some (JSNum.ofNat x))
      (some (JSNum.ofNat y)) (some (JSNum.ofNat (u + 1)))) := by
  have hE : isEXIF d = .ok false := isEXIF_eq_false_of hsig (by decide)
  have hJ : isJFIF d = .ok true := (isJFIF_eq_true_iff d).mpr hsig
  rw [getImageResolution, tryBlock_of_isJFIF hE hJ, getJfifResolution_of hu hx hy]
  rfl

/-! ## C4: the JFIF round trip -/

/-- C4: a buffer of at least 18 bytes with `JFIF` at 6 to 9, unit byte 1 at 13
and the same big-endian 16-bit value `n > 0` at 14 and at 16 gives exactly `n`. -/
theorem jfif_round_trip (d : DataView) (n : Nat) (hlen : 18 ≤ d.length)
    (hsig : u32At d 6 false = 0x4a464946) (hunit : byteAt d 13 = 1)
    (hx : u16At d 14 false = n) (hy : u16At d 16 false = n) (hn : 0 < n) :
    getImageResolution d = some (JSNum.ofNat n) := by
  have hsig' : getUint32 d 6 false = .ok 0x4a464946 :=
    getUint32_ok_iff.mpr ⟨by omega, hsig⟩
  have hunit' : getUint8 d 13 = .ok 1 := getUint8_ok_iff.mpr ⟨by omega, hunit⟩
  have hx' : getUint16 d 14 false = .ok n := getUint16_ok_iff.mpr ⟨by omega, hx⟩
  have hy' : getUint16 d 16 false = .ok n := getUint16_ok_iff.mpr ⟨by omega, hy⟩
  rw [getImageResolution_jfif hsig' hunit' hx' hy']
  have h2 : (some (JSNum.ofNat (1 + 1)) : JSVal) = some (.fin 2) := by
    simp [JSNum.ofNat]
  rw [h2, normalizeResolution_unit2 (by simp [strictEq_ofNat])]
  have : truthy (some (JSNum.ofNat n)) = true := by
    rw [truthy_ofNat]; simpa using Nat.pos_iff_ne_zero.mp hn
  simp [jsOr, this]

/-- C4, witness: a minimal JFIF header with unit 1 and X = Y = 96 gives 96. -/
theorem jfif_round_trip_witness :
    getImageResolution [0xff, 0xd8, 0xff, 0xe0, 0, 16, 0x4a, 0x46, 0x49, 0x46, 0, 1, 1,
      1, 0, 96, 0, 96, 0, 0] = some (.fin 96) :=
  jfif_round_trip _ 96 (by decide) (by decide) (by decide) (by decide) (by decide) (by decide)


/-! ## The PNG reader on a well-formed chunk sequence -/

theorem chunksFrom_cons {d : DataView} {pos p : Nat} {ps : List Nat}
    (h : chunksFrom d pos (p :: ps) = true) :
    p = pos ∧ pos + 12 + u32At d pos false ≤ d.length ∧
      chunksFrom d (pos + 12 + u32At d pos false) ps = true := by
  simpa [chunksFrom, and_assoc] using h

theorem chunksFrom_length {d : DataView} :
    ∀ (ps : List Nat) (pos : Nat), chunksFrom d pos ps = true →
      pos + 12 * ps.length ≤ d.length := by
  intro ps
  induction ps with
  | nil => intro pos h; simp [chunksFrom] at h; simp [h]
  | cons p ps ih =>
    intro pos h
    obtain ⟨-, -, h3⟩ := chunksFrom_cons h
    have := ih _ h3
    simp only [List.length_cons]
    omega

theorem pngChunk_of_other {d : DataView} {pos : Nat} (c : Candidate)
    (hlen : pos + 8 ≤ d.length) (ht : chunkType d pos ≠ pHYs) :
    pngChunk d pos c = .ok (pos + 12 + u32At d pos false, c) := by
  have r0 := @getUint32_of_le d (pos) false (by omega)
  have r1 := @getUint8_of_le d (pos + 4) (by omega)
  have r2 := @getUint8_of_le d (pos + 4 + 1) (by omega)
  have r3 := @getUint8_of_le d (pos + 4 + 2) (by omega)
  have r4 := @getUint8_of_le d (pos + 4 + 3) (by omega)
  have ht' : ¬ (byteAt d (pos + 4), byteAt d (pos + 4 + 1), byteAt d (pos + 4 + 2),
      byteAt d (pos + 4 + 3)) = pHYs := by
    simpa [chunkType, Nat.add_assoc] using ht
  simp only [pngChunk, r0, r1, r2, r3, r4, bind, Except.bind, pure, Except.pure, if_neg ht']
  congr 2
  omega

theorem pngChunk_of_pHYs {d : DataView} {pos : Nat} (c : Candidate)
    (hlen : pos + 17 ≤ d.length) (ht : chunkType d pos = pHYs) :
    pngChunk d pos c = .ok (pos + 12 + u32At d pos false,
      ⟨some (JSNum.ofNat (u32At d (pos + 8) false)), some (JSNum.ofNat (u32At d (pos + 12) false)),
        some (JSNum.ofNat (byteAt d (pos + 16) + 3))⟩) := by
  have r0 := @getUint32_of_le d (pos) false (by omega)
  have r1 := @getUint8_of_le d (pos + 4) (by omega)
  have r2 := @getUint8_of_le d (pos + 4 + 1) (by omega)
  have r3 := @getUint8_of_le d (pos + 4 + 2) (by omega)
  have r4 := @getUint8_of_le d (pos + 4 + 3) (by omega)
  have r5 := @getUint32_of_le d (pos + 4 + 4) false (by omega)
  have r6 := @getUint32_of_le d (pos + 4 + 4 + 4) false (by omega)
  have r7 := @getUint8_of_le d (pos + 4 + 4 + 8) (by omega)
  have ht' : (byteAt d (pos + 4), byteAt d (pos + 4 + 1), byteAt d (pos + 4 + 2),
      byteAt d (pos + 4 + 3)) = pHYs := by
    simpa [chunkType, Nat.add_assoc] using ht
  simp only [pngChunk, r0, r1, r2, r3, r4, r5, r6, r7, bind, Except.bind, pure, Except.pure,
    if_pos ht']
  simp only [Nat.add_assoc]
  congr 2
  omega

/-- A walk over chunks none of which is `pHYs` leaves the variables alone. -/
theorem pngLoop_of_no_pHYs {d : DataView} :
    ∀ (ps : List Nat) (pos fuel : Nat) (c : Candidate), chunksFrom d pos ps = true →
      (∀ q ∈ ps, chunkType d q ≠ pHYs) → ps.length < fuel →
      pngLoop d fuel pos c = some (.ok c) := by
  intro ps
  induction ps with
  | nil =>
    intro pos fuel c h _ hf
    obtain ⟨f, rfl⟩ : ∃ f, fuel = f + 1 := ⟨fuel - 1, by simp at hf; omega⟩
    have hpos : pos = d.length := by simpa [chunksFrom] using h
    simp [pngLoop, hpos]
  | cons p ps ih =>
    intro pos fuel c h hno hf
    obtain ⟨f, rfl⟩ : ∃ f, fuel = f + 1 := ⟨fuel - 1, by simp at hf; omega⟩
    obtain ⟨hp, hle, hrest⟩ := chunksFrom_cons h
    subst hp
    have hlt : p < d.length := by omega
    have hc := pngChunk_of_other c (show p + 8 ≤ d.length by omega)
      (hno p (List.mem_cons_self _ _))
    rw [pngLoop, if_pos hlt, hc]
    exact ih _ f c hrest (fun q hq => hno q (List.mem_cons_of_mem _ hq))
      (by simpa using hf)

/-- On a walk over complete chunks the variables at the end are those of the
last `pHYs` chunk, provided each `pHYs` chunk before it has its nine bytes
inside the view. -/
theorem pngLoop_of_last_pHYs {d : DataView} {p : Nat} {l2 : List Nat}
    (hp : chunkType d p = pHYs) (hin : p + 17 ≤ d.length)
    (hl2 : ∀ q ∈ l2, chunkType d q ≠ pHYs) :
    ∀ (l1 : List Nat) (pos fuel : Nat) (c : Candidate),
      chunksFrom d pos (l1 ++ p :: l2) = true →
      (∀ q ∈ l1, chunkType d q = pHYs → q + 17 ≤ d.length) →
      (l1 ++ p :: l2).length < fuel →
      pngLoop d fuel pos c = some (.ok
        ⟨some (JSNum.ofNat (u32At d (p + 8) false)), some (JSNum.ofNat (u32At d (p + 12) false)),
          some (JSNum.ofNat (byteAt d (p + 16) + 3))⟩) := by
  intro l1
  induction l1 with
  | nil =>
    intro pos fuel c h _ hf
    obtain ⟨f, rfl⟩ : ∃ f, fuel = f + 1 := ⟨fuel - 1, by simp at hf; omega⟩
    obtain ⟨hpp, hle, hrest⟩ := chunksFrom_cons h
    subst hpp
    rw [pngLoop, if_pos (show p < d.length by omega), pngChunk_of_pHYs c hin hp]
    exact pngLoop_of_no_pHYs l2 _ f _ hrest hl2 (by simpa using hf)
  | cons q l1 ih =>
    intro pos fuel c h hl1 hf
    obtain ⟨f, rfl⟩ : ∃ f, fuel = f + 1 := ⟨fuel - 1, by simp at hf; omega⟩
    obtain ⟨hq, hle, hrest⟩ := chunksFrom_cons h
    subst hq
    have hf' : (l1 ++ p :: l2).length < f := by simpa using hf
    have hl1' : ∀ r ∈ l1, chunkType d r = pHYs → r + 17 ≤ d.length :=
      fun r hr => hl1 r (List.mem_cons_of_mem _ hr)
    rw [pngLoop, if_pos (show q < d.length by omega)]
    by_cases ht : chunkType d q = pHYs
    · rw [pngChunk_of_pHYs c (hl1 q (List.mem_cons_self _ _) ht) ht]
      exact ih _ f _ hrest hl1' hf'
    · rw [pngChunk_of_other c (show q + 8 ≤ d.length by omega) ht]
      exact ih _ f _ hrest hl1' hf'


theorem byteAt_of_signature {d : DataView} (hsig : d.take 8 = pngSignature) :
    8 ≤ d.length ∧ byteAt d 1 = 80 ∧ byteAt d 2 = 78 ∧ byteAt d 3 = 71 ∧
      byteAt d 6 = 26 ∧ byteAt d 7 = 10 := by
  have hd : d = pngSignature ++ d.drop 8 := by rw [← hsig, List.take_append_drop]
  generalize d.drop 8 = rest at hd
  subst hd
  exact ⟨by simp [pngSignature], rfl, rfl, rfl, rfl, rfl⟩

/-- A buffer that starts with the PNG signature and goes on with at least one
complete chunk is read by `getPngResolution`. -/
theorem tryBlock_of_signature {d : DataView} (hsig : d.take 8 = pngSignature)
    (hlen : 20 ≤ d.length) : tryBlock d = getPngResolution d := by
  obtain ⟨-, h1, h2, h3, h6, h7⟩ := byteAt_of_signature hsig
  have h8 := byteAt_lt d 8
  have h9 := byteAt_lt d 9
  have hu : getUint32 d 6 false = .ok (u32At d 6 false) := getUint32_of_le (by omega)
  have hval : u32At d 6 false = 16777216 * 26 + 65536 * 10 + 256 * byteAt d 8 + byteAt d 9 := by
    simp [u32At, h6, h7]
  have hE : isEXIF d = .ok false :=
    isEXIF_eq_false_of hu (by rw [hval]; simp only [EXIF_MARKER]; omega)
  have hJ : isJFIF d = .ok false :=
    isJFIF_eq_false_of hu (by rw [hval]; simp only [JFIF_MARKER]; omega)
  have hP : isPNG d = .ok true :=
    (isPNG_eq_true_iff d).mpr
      ⟨getUint8_ok_iff.mpr ⟨by omega, h1⟩, getUint8_ok_iff.mpr ⟨by omega, h2⟩,
        getUint8_ok_iff.mpr ⟨by omega, h3⟩⟩
  exact tryBlock_of_isPNG hE hJ hP

/-- The result on a well-formed PNG: the normalizer's, on the fields of the
last `pHYs` chunk. -/
theorem getImageResolution_png {d : DataView} {p : Nat} {l1 l2 : List Nat}
    (hsig : d.take 8 = pngSignature) (hchunks : chunksFrom d 8 (l1 ++ p :: l2) = true)
    (hp : chunkType d p = pHYs) (hin : p + 17 ≤ d.length)
    (hl1 : ∀ q ∈ l1, chunkType d q = pHYs → q + 17 ≤ d.length)
    (hl2 : ∀ q ∈ l2, chunkType d q ≠ pHYs) :
    getImageResolution d = some (normalizeResolution
      (some (JSNum.ofNat (u32At d (p + 8) false))) (some (JSNum.ofNat (u32At d (p + 12) false)))
      (some (JSNum.ofNat (byteAt d (p + 16) + 3)))) := by
  have hlen := chunksFrom_length _ _ hchunks
  have hpos : 0 < (l1 ++ p :: l2).length := by simp
  rw [getImageResolution, tryBlock_of_signature hsig (by omega), getPngResolution,
    getPngResolutionFuel,
    pngLoop_of_last_pHYs hp hin hl2 l1 8 (d.length + 1) Candidate.empty hchunks hl1 (by omega)]
  rfl

theorem mathRound_ne_nan {x : JSNum} (h : x ≠ .nan) : mathRound x ≠ .nan := by
  cases x <;> simp_all [mathRound]

theorem lit_39_37_eq : lit_39_37 = .fin (1385211499560315 / 35184372088832) := by
  decide!

theorem lit_2_54_eq : lit_2_54 = .fin (2859785763380265 / 1125899906842624) := by
  decide!

theorem fdiv_lit_39_37 (q : ℚ) :
    fdiv (.fin q) lit_39_37 = roundToDouble (q / (1385211499560315 / 35184372088832)) := by
  rw [lit_39_37_eq]
  simp [fdiv]

theorem jsOr_of_ne_nan {r : JSNum} (h : r ≠ .nan) (b : JSNum) :
    jsOr (some r) b = if r = .fin 0 then b else r := by
  cases r with
  | nan => exact absurd rfl h
  | inf => simp [jsOr, truthy]
  | fin q =>
    by_cases hq : q = 0
    · simp [jsOr, truthy, hq]
    · simp [jsOr, truthy, hq]

/-- The rounding of the claim's three sample values: 2835, 2800 and 2900 pixels per
metre are 72, 71 and 74 pixels per inch. -/
theorem mathRound_samples :
    mathRound (fdiv (JSNum.ofNat 2835) lit_39_37) = .fin 72 ∧
    mathRound (fdiv (JSNum.ofNat 2800) lit_39_37) = .fin 71 ∧
    mathRound (fdiv (JSNum.ofNat 2900) lit_39_37) = .fin 74 := by
  decide!

/-! ## C6: the PNG round trip -/

/-- C6: a buffer made of the 8-byte PNG signature and a sequence of complete
chunks that ends exactly at the end of the buffer, exactly one of them of type
`pHYs`, with big-endian X = Y = `v` and unit byte 1, gives
`Math.round(v / 39.37007874015748)` when that is not zero and 72 when it is. -/
theorem png_round_trip (d : DataView) (ps : List Nat) (p v : Nat)
    (hsig : d.take 8 = pngSignature) (hchunks : chunksFrom d 8 ps = true)
    (hmem : p ∈ ps) (hp : chunkType d p = pHYs)
    (huniq : ∀ q ∈ ps, chunkType d q = pHYs → q = p)
    (hx : getUint32 d (p + 8) false = .ok v) (hy : getUint32 d (p + 12) false = .ok v)
    (hu : getUint8 d (p + 16) = .ok 1) :
    getImageResolution d = some
      (if mathRound (fdiv (JSNum.ofNat v) lit_39_37) = .fin 0 then .fin 72
       else mathRound (fdiv (JSNum.ofNat v) lit_39_37)) := by
  obtain ⟨hin, hu'⟩ := getUint8_ok_iff.mp hu
  obtain ⟨-, hx'⟩ := getUint32_ok_iff.mp hx
  obtain ⟨-, hy'⟩ := getUint32_ok_iff.mp hy
  obtain ⟨s, t, hst, hps⟩ := List.eq_append_cons_of_mem (List.mem_reverse.mpr hmem)
  have hsplit : ps = t.reverse ++ p :: s.reverse := by
    have := congrArg List.reverse hst
    simpa using this
  subst hsplit
  have hl1 : ∀ q ∈ t.reverse, chunkType d q = pHYs → q + 17 ≤ d.length := by
    intro q hq ht
    have := huniq q (by simp [List.mem_reverse.mp hq]) ht
    omega
  have hl2 : ∀ q ∈ s.reverse, chunkType d q ≠ pHYs := by
    intro q hq ht
    have := huniq q (by simp [List.mem_reverse.mp hq]) ht
    subst this
    exact hps (List.mem_reverse.mp hq)
  rw [getImageResolution_png hsig hchunks hp (by omega) hl1 hl2, hx', hy', hu']
  have h4 : (some (JSNum.ofNat (1 + 3)) : JSVal) = some (.fin 4) := by
    simp [JSNum.ofNat]
  rw [h4, normalizeResolution_unit4 (by simp [strictEq_ofNat])]
  simp only [toNumber]
  have hne : mathRound (fdiv (JSNum.ofNat v) lit_39_37) ≠ .nan := by
    apply mathRound_ne_nan
    rw [JSNum.ofNat, fdiv_lit_39_37]
    exact roundToDouble_ne_nan _
  rw [jsOr_of_ne_nan hne]
  rfl

/-- C6, witness: signature, `IHDR`, `pHYs` with unit 1, `IEND`; X = Y = 2835
gives 72, 2800 gives 71 and 2900 gives 74. -/
theorem png_round_trip_witness :
    getImageResolution png2835 = some (.fin 72) ∧
    getImageResolution png2800 = some (.fin 71) ∧
    getImageResolution png2900 = some (.fin 74) :=
  ⟨(png_round_trip png2835 [8, 33, 54] 33 2835 (by decide) (by decide) (by decide) (by decide)
      (by decide) (by decide) (by decide) (by decide)).trans (by decide!),
   (png_round_trip png2800 [8, 33, 54] 33 2800 (by decide) (by decide) (by decide) (by decide)
      (by decide) (by decide) (by decide) (by decide)).trans (by decide!),
   (png_round_trip png2900 [8, 33, 54] 33 2900 (by decide) (by decide) (by decide) (by decide)
      (by decide) (by decide) (by decide) (by decide)).trans (by decide!)⟩

/-! ## The EXIF reader on a well-formed directory -/

theorem getRational_eq {d : DataView} {le : Bool} {s : Nat} (hin : s + 12 ≤ d.length) :
    getRational d s le =
      (do
        let numerator ← getUint32 d (u32At d (s + 8) le + 12) le
        let denominator ← getUint32 d (u32At d (s + 8) le + 12 + 4) le
        pure (fdiv (JSNum.ofNat numerator) (JSNum.ofNat denominator))) := by
  have r0 := @getUint32_of_le d (s + 8) le (by omega)
  simp only [getRational, r0, bind, Except.bind]

theorem getRational_of {d : DataView} {le : Bool} {s n dd : Nat} (hin : s + 12 ≤ d.length)
    (hn : getUint32 d (u32At d (s + 8) le + 12) le = .ok n)
    (hd : getUint32 d (u32At d (s + 8) le + 12 + 4) le = .ok dd) :
    getRational d s le = .ok (fdiv (JSNum.ofNat n) (JSNum.ofNat dd)) := by
  rw [getRational_eq hin]
  simp only [hn, hd, bind, Except.bind, pure, Except.pure]

/-- The `switch` of one loop iteration, on an entry inside the buffer. -/
theorem jpgEntry_eq {d : DataView} {le : Bool} {s : Nat} (c : Candidate)
    (hin : s + 12 ≤ d.length) :
    jpgEntry d le s c =
      if u16At d s le = 282 then
        (getRational d s le).map fun r => { c with XResolution := some r }
      else if u16At d s le = 283 then
        (getRational d s le).map fun r => { c with YResolution := some r }
      else if u16At d s le = 296 then
        .ok { c with ResolutionUnit := some (JSNum.ofNat (u16At d (s + 8) le)) }
      else .ok c := by
  have r0 := @getUint16_of_le d s le (by omega)
  have r1 := @getUint16_of_le d (s + 8) le (by omega)
  simp only [jpgEntry, r0, r1, bind, Except.bind, pure, Except.pure]
  split
  · cases getRational d s le <;> rfl
  · split
    · cases getRational d s le <;> rfl
    · split <;> rfl

theorem jpgEntry_X {d : DataView} {le : Bool} {s : Nat} {c c' : Candidate}
    (hin : s + 12 ≤ d.length) (h : jpgEntry d le s c = .ok c') (ht : u16At d s le ≠ 282) :
    c'.XResolution = c.XResolution := by
  rw [jpgEntry_eq c hin, if_neg ht] at h
  split at h
  · cases hr : getRational d s le with
    | error e => simp [hr, Except.map] at h
    | ok r => simp [hr, Except.map] at h; rw [← h]
  · split at h
    · simp at h; rw [← h]
    · simp at h; rw [← h]

theorem jpgEntry_Y {d : DataView} {le : Bool} {s : Nat} {c c' : Candidate}
    (hin : s + 12 ≤ d.length) (h : jpgEntry d le s c = .ok c') (ht : u16At d s le ≠ 283) :
    c'.YResolution = c.YResolution := by
  rw [jpgEntry_eq c hin] at h
  split at h
  · cases hr : getRational d s le with
    | error e => simp [hr, Except.map] at h
    | ok r => simp [hr, Except.map] at h; rw [← h]
  · split at h
    · simp at h; rw [← h]
    · simp at h; rw [← h]

theorem jpgEntry_U {d : DataView} {le : Bool} {s : Nat} {c c' : Candidate}
    (hin : s + 12 ≤ d.length) (h : jpgEntry d le s c = .ok c') (ht : u16At d s le ≠ 296) :
    c'.ResolutionUnit = c.ResolutionUnit := by
  rw [jpgEntry_eq c hin] at h
  split at h
  · cases hr : getRational d s le with
    | error e => simp [hr, Except.map] at h
    | ok r => simp [hr, Except.map] at h; rw [← h]
  · split at h
    · cases hr : getRational d s le with
      | error e => simp [hr, Except.map] at h
      | ok r => simp [hr, Except.map] at h; rw [← h]
    · simp at h; rw [← h]

theorem jpgEntry_X_of_tag {d : DataView} {le : Bool} {s : Nat} {c c' : Candidate} {r : JSNum}
    (hin : s + 12 ≤ d.length) (h : jpgEntry d le s c = .ok c') (ht : u16At d s le = 282)
    (hr : getRational d s le = .ok r) : c'.XResolution = some r := by
  rw [jpgEntry_eq c hin, if_pos ht, hr] at h
  simp [Except.map] at h; rw [← h]

theorem jpgEntry_Y_of_tag {d : DataView} {le : Bool} {s : Nat} {c c' : Candidate} {r : JSNum}
    (hin : s + 12 ≤ d.length) (h : jpgEntry d le s c = .ok c') (ht : u16At d s le = 283)
    (hr : getRational d s le = .ok r) : c'.YResolution = some r := by
  rw [jpgEntry_eq c hin, if_neg (by omega), if_pos ht, hr] at h
  simp [Except.map] at h; rw [← h]

theorem jpgEntry_U_of_tag {d : DataView} {le : Bool} {s : Nat} {c c' : Candidate}
    (hin : s + 12 ≤ d.length) (h : jpgEntry d le s c = .ok c') (ht : u16At d s le = 296) :
    c'.ResolutionUnit = some (JSNum.ofNat (u16At d (s + 8) le)) := by
  rw [jpgEntry_eq c hin, if_neg (by omega), if_neg (by omega), if_pos ht] at h
  simp at h; rw [← h]

theorem jpgLoop_succ {d : DataView} {le : Bool} {m s : Nat} {c c' : Candidate}
    (h : jpgLoop d le (m + 1) s c = .ok c') :
    ∃ c1, jpgEntry d le s c = .ok c1 ∧ jpgLoop d le m (s + 12) c1 = .ok c' := by
  rw [jpgLoop] at h
  cases h1 : jpgEntry d le s c with
  | error e => simp [h1, bind, Except.bind] at h
  | ok c1 => exact ⟨c1, rfl, by simpa [h1, bind, Except.bind] using h⟩


/-- A variable that an entry changes only under the tag `tag` keeps its value
over a run of entries none of which has that tag. -/
theorem jpgLoop_field_preserved {d : DataView} {le : Bool} (proj : Candidate → JSVal)
    (tag : Nat)
    (hentry : ∀ s c c', s + 12 ≤ d.length → jpgEntry d le s c = .ok c' →
      u16At d s le ≠ tag → proj c' = proj c) :
    ∀ (m s : Nat) (c c' : Candidate), s + 12 * m ≤ d.length →
      jpgLoop d le m s c = .ok c' → (∀ j < m, u16At d (s + 12 * j) le ≠ tag) →
      proj c' = proj c := by
  intro m
  induction m with
  | zero =>
    intro s c c' _ h _
    simp only [jpgLoop, Except.ok.injEq] at h
    rw [h]
  | succ m ih =>
    intro s c c' hin h hno
    obtain ⟨c1, h1, h2⟩ := jpgLoop_succ h
    have e1 := hentry s c c1 (by omega) h1 (by simpa using hno 0 (by omega))
    have e2 := ih (s + 12) c1 c' (by omega) h2 (fun j hj => by
      have := hno (j + 1) (by omega)
      rwa [show s + 12 * (j + 1) = s + 12 + 12 * j by ring] at this)
    rw [e2, e1]

/-- A variable that an entry with the tag `tag` sets to `v` of its position
holds, after the loop, the value of the last entry with that tag. -/
theorem jpgLoop_field_last {d : DataView} {le : Bool} (proj : Candidate → JSVal)
    (tag : Nat) (v : Nat → JSVal)
    (hentry : ∀ s c c', s + 12 ≤ d.length → jpgEntry d le s c = .ok c' →
      u16At d s le ≠ tag → proj c' = proj c)
    (hset : ∀ s c c', s + 12 ≤ d.length → jpgEntry d le s c = .ok c' →
      u16At d s le = tag → proj c' = v s) :
    ∀ (m s k : Nat) (c c' : Candidate), s + 12 * m ≤ d.length →
      jpgLoop d le m s c = .ok c' → k < m → u16At d (s + 12 * k) le = tag →
      (∀ j, k < j → j < m → u16At d (s + 12 * j) le ≠ tag) →
      proj c' = v (s + 12 * k) := by
  intro m
  induction m with
  | zero => intro s k c c' _ _ hk; omega
  | succ m ih =>
    intro s k c c' hin h hk ht hno
    obtain ⟨c1, h1, h2⟩ := jpgLoop_succ h
    cases k with
    | zero =>
      have e1 := hset s c c1 (by omega) h1 (by simpa using ht)
      have e2 := jpgLoop_field_preserved proj tag hentry m (s + 12) c1 c' (by omega) h2
        (fun j hj => by
          have := hno (j + 1) (by omega) (by omega)
          rwa [show s + 12 * (j + 1) = s + 12 + 12 * j by ring] at this)
      rw [e2, e1]; simp
    | succ k =>
      have := ih (s + 12) k c1 c' (by omega) h2 (by omega)
        (by rwa [show s + 12 * (k + 1) = s + 12 + 12 * k by ring] at ht)
        (fun j hkj hj => by
          have := hno (j + 1) (by omega) (by omega)
          rwa [show s + 12 * (j + 1) = s + 12 + 12 * j by ring] at this)
      rw [this, show s + 12 * (k + 1) = s + 12 + 12 * k by ring]

/-- The loop does not throw when every entry lies inside the buffer and every
entry with tag 282 or 283 points to a rational inside the buffer. -/
theorem jpgLoop_ok {d : DataView} {le : Bool} :
    ∀ (m s : Nat) (c : Candidate), s + 12 * m ≤ d.length →
      (∀ j < m, u16At d (s + 12 * j) le = 282 ∨ u16At d (s + 12 * j) le = 283 →
        ∃ r, getRational d (s + 12 * j) le = .ok r) →
      ∃ c', jpgLoop d le m s c = .ok c' := by
  intro m
  induction m with
  | zero => intro s c _ _; exact ⟨c, rfl⟩
  | succ m ih =>
    intro s c hin hr
    have hr0 := hr 0 (by omega)
    simp only [Nat.mul_zero, Nat.add_zero] at hr0
    have h1 : ∃ c1, jpgEntry d le s c = .ok c1 := by
      rw [jpgEntry_eq c (by omega)]
      split
      · rename_i ht
        obtain ⟨r, hr'⟩ := hr0 (Or.inl ht)
        exact ⟨_, by rw [hr']; rfl⟩
      · split
        · rename_i ht
          obtain ⟨r, hr'⟩ := hr0 (Or.inr ht)
          exact ⟨_, by rw [hr']; rfl⟩
        · split <;> exact ⟨_, rfl⟩
    obtain ⟨c1, h1⟩ := h1
    obtain ⟨c', h2⟩ := ih (s + 12) c1 (by omega) (fun j hj => by
      have := hr (j + 1) (by omega)
      rwa [show s + 12 * (j + 1) = s + 12 + 12 * j by ring] at this)
    exact ⟨c', by rw [jpgLoop, h1]; simpa [bind, Except.bind] using h2⟩

theorem isLittleEndian_marker (le : Bool) :
    isLittleEndian (if le then 0x4949 else 0x4d4d) = .ok le := by
  cases le <;> simp [isLittleEndian]

/-- On a buffer with an EXIF header the result is the normalizer's, on the
variables the loop ends with. -/
theorem getImageResolution_exif {d : DataView} {le : Bool} {ifd count : Nat} {c : Candidate}
    (hh : ExifHeader d le ifd count)
    (hloop : jpgLoop d le count (entryAt ifd 0) Candidate.empty = .ok c) :
    getImageResolution d =
      some (normalizeResolution c.XResolution c.YResolution c.ResolutionUnit) := by
  obtain ⟨h1, h2, h3, h4, h5, -⟩ := hh
  have hE : isEXIF d = .ok true := (isEXIF_eq_true_iff d).mpr ⟨h1, h2⟩
  have hloop' : jpgLoop d le count (ifd + 12 + 2) Candidate.empty = .ok c := by
    simpa [entryAt] using hloop
  have hJ : getJpgResolution d =
      .ok (normalizeResolution c.XResolution c.YResolution c.ResolutionUnit) := by
    simp only [getJpgResolution, h3, isLittleEndian_marker, h4, h5, hloop', bind, Except.bind,
      pure, Except.pure]
  rw [getImageResolution, tryBlock_of_isEXIF hE, hJ]
  rfl


/-- The value that an entry with tag 282 or 283 stores. -/
theorem jpgEntry_X_value {d : DataView} {le : Bool} (s : Nat) (c c' : Candidate)
    (hin : s + 12 ≤ d.length) (h : jpgEntry d le s c = .ok c') (ht : u16At d s le = 282) :
    c'.XResolution = (getRational d s le).toOption := by
  cases hr : getRational d s le with
  | error e => rw [jpgEntry_eq c hin, if_pos ht, hr] at h; simp [Except.map] at h
  | ok r => rw [jpgEntry_X_of_tag hin h ht hr]; rfl

theorem jpgEntry_Y_value {d : DataView} {le : Bool} (s : Nat) (c c' : Candidate)
    (hin : s + 12 ≤ d.length) (h : jpgEntry d le s c = .ok c') (ht : u16At d s le = 283) :
    c'.YResolution = (getRational d s le).toOption := by
  cases hr : getRational d s le with
  | error e =>
    rw [jpgEntry_eq c hin, if_neg (by omega), if_pos ht, hr] at h; simp [Except.map] at h
  | ok r => rw [jpgEntry_Y_of_tag hin h ht hr]; rfl

theorem getRational_at {d : DataView} {le : Bool} {ifd count j n dd : Nat}
    (hh : ExifHeader d le ifd count) (hj : j < count) (hr : RationalAt d le ifd j n dd) :
    getRational d (ifd + 14 + 12 * j) le = .ok (fdiv (JSNum.ofNat n) (JSNum.ofNat dd)) := by
  have hlen := hh.2.2.2.2.2
  simp only [entryAt] at hlen
  have hmul : 12 * (j + 1) ≤ 12 * count := Nat.mul_le_mul_left 12 hj
  exact getRational_of (by omega) hr.1 hr.2

theorem exif_X_of_only {d : DataView} {le : Bool} {ifd count ix n dd : Nat} {c0 c : Candidate}
    (hh : ExifHeader d le ifd count) (hloop : jpgLoop d le count (ifd + 14) c0 = .ok c)
    (ho : OnlyEntry d le ifd count 282 ix) (hr : RationalAt d le ifd ix n dd) :
    c.XResolution = some (fdiv (JSNum.ofNat n) (JSNum.ofNat dd)) := by
  have hlen := hh.2.2.2.2.2
  simp only [entryAt] at hlen
  have : c.XResolution = (getRational d (ifd + 14 + 12 * ix) le).toOption :=
    jpgLoop_field_last (fun c => c.XResolution) 282
    (fun s => (getRational d s le).toOption)
    (fun s c c' hin h ht => jpgEntry_X hin h ht) jpgEntry_X_value
    count (ifd + 14) ix c0 c hlen hloop ho.1 ((ho.2 ix ho.1).mpr rfl)
    (fun j hkj hj hc => by
      have := (ho.2 j hj).mp hc
      omega)
  rw [this, getRational_at hh ho.1 hr]
  rfl

theorem exif_Y_of_only {d : DataView} {le : Bool} {ifd count iy n dd : Nat} {c0 c : Candidate}
    (hh : ExifHeader d le ifd count) (hloop : jpgLoop d le count (ifd + 14) c0 = .ok c)
    (ho : OnlyEntry d le ifd count 283 iy) (hr : RationalAt d le ifd iy n dd) :
    c.YResolution = some (fdiv (JSNum.ofNat n) (JSNum.ofNat dd)) := by
  have hlen := hh.2.2.2.2.2
  simp only [entryAt] at hlen
  have : c.YResolution = (getRational d (ifd + 14 + 12 * iy) le).toOption :=
    jpgLoop_field_last (fun c => c.YResolution) 283
    (fun s => (getRational d s le).toOption)
    (fun s c c' hin h ht => jpgEntry_Y hin h ht) jpgEntry_Y_value
    count (ifd + 14) iy c0 c hlen hloop ho.1 ((ho.2 iy ho.1).mpr rfl)
    (fun j hkj hj hc => by
      have := (ho.2 j hj).mp hc
      omega)
  rw [this, getRational_at hh ho.1 hr]
  rfl

theorem exif_U_of_only {d : DataView} {le : Bool} {ifd count iu : Nat} {c0 c : Candidate}
    (hh : ExifHeader d le ifd count) (hloop : jpgLoop d le count (ifd + 14) c0 = .ok c)
    (ho : OnlyEntry d le ifd count 296 iu) :
    c.ResolutionUnit = some (JSNum.ofNat (u16At d (entryAt ifd iu + 8) le)) := by
  have hlen := hh.2.2.2.2.2
  simp only [entryAt] at hlen
  exact jpgLoop_field_last (fun c => c.ResolutionUnit) 296
    (fun s => some (JSNum.ofNat (u16At d (s + 8) le)))
    (fun s c c' hin h ht => jpgEntry_U hin h ht)
    (fun s c c' hin h ht => jpgEntry_U_of_tag hin h ht)
    count (ifd + 14) iu c0 c hlen hloop ho.1 ((ho.2 iu ho.1).mpr rfl)
    (fun j hkj hj hc => by
      have := (ho.2 j hj).mp hc
      omega)

theorem exif_U_of_none {d : DataView} {le : Bool} {ifd count : Nat} {c0 c : Candidate}
    (hh : ExifHeader d le ifd count) (hloop : jpgLoop d le count (ifd + 14) c0 = .ok c)
    (ho : NoEntry d le ifd count 296) :
    c.ResolutionUnit = c0.ResolutionUnit := by
  have hlen := hh.2.2.2.2.2
  simp only [entryAt] at hlen
  exact jpgLoop_field_preserved (fun c => c.ResolutionUnit) 296
    (fun s c c' hin h ht => jpgEntry_U hin h ht) count (ifd + 14) c0 c hlen hloop ho

/-- The result on an EXIF file with one entry each for the tags 282 and 283:
the normalizer's, on the two quotients and the unit. -/
theorem getImageResolution_exifImage {d : DataView} {le : Bool} {xn xd yn yd : Nat}
    {unit : Option Nat} (h : ExifImage d le xn xd yn yd unit) :
    getImageResolution d = some (normalizeResolution
      (some (fdiv (JSNum.ofNat xn) (JSNum.ofNat xd)))
      (some (fdiv (JSNum.ofNat yn) (JSNum.ofNat yd))) (unit.map JSNum.ofNat)) := by
  obtain ⟨ifd, count, ix, iy, hh, hx, hy, hrx, hry, hu⟩ := h
  have hlen := hh.2.2.2.2.2
  simp only [entryAt] at hlen
  obtain ⟨c, hloop⟩ := @jpgLoop_ok d le count (ifd + 14) Candidate.empty hlen
    (fun j hj ht => by
      rcases ht with ht | ht
      · have := (hx.2 j hj).mp ht
        subst this
        exact ⟨_, getRational_at hh hj hrx⟩
      · have := (hy.2 j hj).mp ht
        subst this
        exact ⟨_, getRational_at hh hj hry⟩)
  rw [getImageResolution_exif hh (by simpa [entryAt] using hloop),
    exif_X_of_only hh hloop hx hrx, exif_Y_of_only hh hloop hy hry]
  cases unit with
  | none => rw [exif_U_of_none hh hloop hu]; rfl
  | some u =>
    obtain ⟨iu, hiu, hval⟩ := hu
    rw [exif_U_of_only hh hloop hiu, hval]; rfl


theorem u32At_lt (d : DataView) (off : Nat) (le : Bool) : u32At d off le < 4294967296 := by
  have h0 := byteAt_lt d off
  have h1 := byteAt_lt d (off + 1)
  have h2 := byteAt_lt d (off + 2)
  have h3 := byteAt_lt d (off + 3)
  unfold u32At
  split <;> omega

theorem u16At_lt (d : DataView) (off : Nat) (le : Bool) : u16At d off le < 65536 := by
  have h0 := byteAt_lt d off
  have h1 := byteAt_lt d (off + 1)
  unfold u16At
  split <;> omega

/-- The quotient of two positive 32-bit values is a finite, strictly positive
double. -/
theorem fdiv_ofNat_pos {n dd : Nat} (hn : 0 < n) (hd : 0 < dd) (hn' : n < 4294967296)
    (hd' : dd < 4294967296) :
    ∃ r : ℚ, fdiv (JSNum.ofNat n) (JSNum.ofNat dd) = .fin r ∧ 0 < r := by
  have hdq : (0 : ℚ) < (dd : ℚ) := by exact_mod_cast hd
  have hnq : (1 : ℚ) ≤ (n : ℚ) := by exact_mod_cast hn
  have hnq' : (n : ℚ) < 4294967296 := by exact_mod_cast hn'
  have hdq' : (dd : ℚ) < 4294967296 := by exact_mod_cast hd'
  have hdq1 : (1 : ℚ) ≤ (dd : ℚ) := by exact_mod_cast hd
  have e1 : pow2 (-32) = 1 / 4294967296 := by
    rw [pow2_eq_zpow]; norm_num
  have e2 : pow2 32 = 4294967296 := by
    rw [pow2_eq_zpow]; norm_num
  have hlo : pow2 (-1074) ≤ (n : ℚ) / (dd : ℚ) := by
    refine le_trans (pow2_le_pow2 (show (-1074 : ℤ) ≤ -32 by norm_num)) ?_
    rw [e1, div_le_div_iff₀ (by norm_num) hdq]
    nlinarith
  have hhi : (n : ℚ) / (dd : ℚ) < pow2 1023 := by
    refine lt_of_lt_of_le ?_ (pow2_le_pow2 (show (32 : ℤ) ≤ 1023 by norm_num))
    rw [e2, div_lt_iff₀ hdq]
    nlinarith
  have hne : (dd : ℚ) ≠ 0 := ne_of_gt hdq
  simpa [fdiv, JSNum.ofNat, hne] using roundToDouble_pos hlo hhi

theorem jsOr_of_pos {r : ℚ} (h : 0 < r) (b : JSNum) : jsOr (some (.fin r)) b = .fin r := by
  simp [jsOr, truthy, ne_of_gt h]

/-! ## C5: the EXIF round trip -/

/-- C5: an EXIF buffer, in either byte order, whose directory lies inside the
buffer and has exactly one entry with tag 282 and one with tag 283, both
pointing to a rational `n / dd` inside the buffer with `n > 0` and `dd > 0`,
and exactly one entry with tag 296 and value 2 (other entries arbitrary)
gives the quotient `n / dd`; so the little-endian and the big-endian encoding
of such a directory give the same result. -/
theorem exif_round_trip (n dd : Nat) (hn : 0 < n) (hd : 0 < dd) :
    (∀ (d : DataView) (le : Bool), ExifImage d le n dd n dd (some 2) →
      getImageResolution d = some (fdiv (JSNum.ofNat n) (JSNum.ofNat dd))) ∧
    (∀ dLE dBE : DataView, ExifImage dLE true n dd n dd (some 2) →
      ExifImage dBE false n dd n dd (some 2) →
      getImageResolution dLE = getImageResolution dBE) := by
  have key : ∀ (d : DataView) (le : Bool), ExifImage d le n dd n dd (some 2) →
      getImageResolution d = some (fdiv (JSNum.ofNat n) (JSNum.ofNat dd)) := by
    intro d le h
    rw [getImageResolution_exifImage h]
    obtain ⟨ifd, count, ix, iy, -, -, -, hrx, -, -⟩ := h
    have hn' : n < 4294967296 := by
      rw [← (getUint32_ok_iff.mp hrx.1).2]; exact u32At_lt _ _ _
    have hd' : dd < 4294967296 := by
      rw [← (getUint32_ok_iff.mp hrx.2).2]; exact u32At_lt _ _ _
    obtain ⟨r, hr, hpos⟩ := fdiv_ofNat_pos hn hd hn' hd'
    have h2 : (Option.map JSNum.ofNat (some 2) : JSVal) = some (.fin 2) := by
      simp [JSNum.ofNat]
    rw [h2, hr, normalizeResolution_unit2 (by simp [strictEq_fin]), jsOr_of_pos hpos]
  exact ⟨key, fun dLE dBE h1 h2 => by rw [key dLE true h1, key dBE false h2]⟩

theorem exifLE_image : ExifImage exifLE true 300 1 300 1 (some 2) :=
  ⟨8, 3, 0, 1, by decide, by decide, by decide, by decide, by decide, 2, by decide, by decide⟩

theorem exifBE_image : ExifImage exifBE false 300 1 300 1 (some 2) :=
  ⟨8, 3, 0, 1, by decide, by decide, by decide, by decide, by decide, 2, by decide, by decide⟩

/-- C5, witness: the little-endian directory with 300/1 and unit 2 gives 300,
and so does its big-endian encoding. -/
theorem exif_round_trip_witness :
    getImageResolution exifLE = some (.fin 300) ∧
      getImageResolution exifLE = getImageResolution exifBE :=
  ⟨((exif_round_trip 300 1 (by decide) (by decide)).1 exifLE true exifLE_image).trans
      (by decide!),
    (exif_round_trip 300 1 (by decide) (by decide)).2 exifLE exifBE exifLE_image exifBE_image⟩


/-! ## C7: non-square pixels -/

/-- C7, as the code has it: whenever the X and Y values handed to
`normalizeResolution` differ (`x !== y`), the result is 72 for every unit; so
a JFIF header whose fields at 14 and 16 differ, an EXIF directory whose
double quotients numerator / denominator for the tags 282 and 283 differ,
and a PNG whose (last) `pHYs` chunk has X different from Y all give 72. For
EXIF it is the two quotients, as `getRational` computes them, that are
compared, not the two rationals. -/
theorem non_square_fallback :
    (∀ x y unit : JSVal, strictEq x y = false → normalizeResolution x y unit = .fin 72) ∧
    (∀ (d : DataView) (u x y : Nat), getUint32 d 6 false = .ok 0x4a464946 →
      getUint8 d 13 = .ok u → getUint16 d 14 false = .ok x → getUint16 d 16 false = .ok y →
      x ≠ y → getImageResolution d = some (.fin 72)) ∧
    (∀ (d : DataView) (le : Bool) (xn xd yn yd : Nat) (unit : Option Nat),
      ExifImage d le xn xd yn yd unit →
      strictEq (some (fdiv (JSNum.ofNat xn) (JSNum.ofNat xd)))
        (some (fdiv (JSNum.ofNat yn) (JSNum.ofNat yd))) = false →
      getImageResolution d = some (.fin 72)) ∧
    (∀ (d : DataView) (l1 l2 : List Nat) (p : Nat), d.take 8 = pngSignature →
      chunksFrom d 8 (l1 ++ p :: l2) = true → chunkType d p = pHYs → p + 17 ≤ d.length →
      (∀ q ∈ l1, chunkType d q = pHYs → q + 17 ≤ d.length) →
      (∀ q ∈ l2, chunkType d q ≠ pHYs) →
      u32At d (p + 8) false ≠ u32At d (p + 12) false →
      getImageResolution d = some (.fin 72)) := by
  refine ⟨fun x y unit h => normalizeResolution_of_ne unit h, ?_, ?_, ?_⟩
  · intro d u x y hsig hu hx hy hne
    rw [getImageResolution_jfif hsig hu hx hy,
      normalizeResolution_of_ne _ (by simp [strictEq_ofNat, hne])]
    rfl
  · intro d le xn xd yn yd unit h hne
    rw [getImageResolution_exifImage h, normalizeResolution_of_ne _ hne]
    rfl
  · intro d l1 l2 p hsig hchunks hp hin hl1 hl2 hne
    rw [getImageResolution_png hsig hchunks hp hin hl1 hl2,
      normalizeResolution_of_ne _ (by simp [strictEq_ofNat, hne])]
    rfl

/-- C7, witness: X = 100 and Y = 200 give 72 in the normalizer (unit 2) and in
a JFIF, an EXIF and a PNG file. -/
theorem non_square_fallback_witness :
    normalizeResolution (some (.fin 100)) (some (.fin 200)) (some (.fin 2)) = .fin 72 ∧
    getImageResolution jfif100x200 = some (.fin 72) ∧
    getImageResolution exif100x200 = some (.fin 72) ∧
    getImageResolution png100x200 = some (.fin 72) :=
  ⟨non_square_fallback.1 _ _ _ (by decide),
   non_square_fallback.2.1 jfif100x200 1 100 200 (by decide) (by decide) (by decide)
     (by decide) (by decide),
   non_square_fallback.2.2.1 exif100x200 true 100 1 200 1 (some 2)
     ⟨8, 3, 0, 1, by decide, by decide, by decide, by decide, by decide, 2, by decide,
       by decide⟩ (by decide!),
   non_square_fallback.2.2.2 png100x200 [8] [54] 33 (by decide) (by decide) (by decide)
     (by decide) (by decide) (by decide) (by decide)⟩

/-- C7, counterexample: in `exifNearEq` the X and Y rationals of the tags 282
and 283 differ, 4294967295/4294967294 and 4294967294/4294967293, but both
quotients are the double `1 + 2 ^ (-32)`; with unit 2 the result is that
double, not 72. -/
theorem near_equal_rationals_counterexample :
    ExifImage exifNearEq true 4294967295 4294967294 4294967294 4294967293 (some 2) ∧
    4294967295 * 4294967293 ≠ 4294967294 * 4294967294 ∧
    fdiv (JSNum.ofNat 4294967295) (JSNum.ofNat 4294967294) =
      fdiv (JSNum.ofNat 4294967294) (JSNum.ofNat 4294967293) ∧
    getImageResolution exifNearEq = some (.fin (4294967297 / 4294967296)) ∧
    getImageResolution exifNearEq ≠ some (.fin 72) :=
  ⟨⟨8, 3, 0, 1, by decide, by decide, by decide, by decide, by decide, 2, by decide,
      by decide⟩,
    by decide, by decide!, by decide!, by decide!⟩

/-! ## C8: unmapped units -/

theorem ofNat_ne_fin {u : Nat} {k : Nat} (h : u ≠ k) :
    (some (JSNum.ofNat u) : JSVal) ≠ some (.fin (k : ℚ)) := by
  intro he
  simp only [JSNum.ofNat, Option.some.injEq, JSNum.fin.injEq] at he
  exact h (by exact_mod_cast he)

/-- C8: a unit that is absent or none of 2, 3, 4 makes `normalizeResolution`
return 72, for equal X and Y as for any others; so a JFIF header whose unit
byte at 13 is 0 or at least 4, and an EXIF directory with no entry for tag
296 or with a value for it other than 2, 3 and 4, give 72 whatever X and Y
are. -/
theorem unmapped_unit :
    (∀ x y unit : JSVal, unit ≠ some (.fin 2) → unit ≠ some (.fin 3) → unit ≠ some (.fin 4) →
      normalizeResolution x y unit = .fin 72) ∧
    (∀ (d : DataView) (b x y : Nat), getUint32 d 6 false = .ok 0x4a464946 →
      getUint8 d 13 = .ok b → getUint16 d 14 false = .ok x → getUint16 d 16 false = .ok y →
      (b = 0 ∨ 4 ≤ b) → getImageResolution d = some (.fin 72)) ∧
    (∀ (d : DataView) (le : Bool) (xn xd yn yd : Nat) (unit : Option Nat),
      ExifImage d le xn xd yn yd unit →
      (∀ u, unit = some u → u ≠ 2 ∧ u ≠ 3 ∧ u ≠ 4) →
      getImageResolution d = some (.fin 72)) := by
  refine ⟨fun x y unit h2 h3 h4 => normalizeResolution_unmapped x y h2 h3 h4, ?_, ?_⟩
  · intro d b x y hsig hu hx hy hb
    rw [getImageResolution_jfif hsig hu hx hy]
    have h2 := @ofNat_ne_fin (b + 1) 2 (by omega)
    have h3 := @ofNat_ne_fin (b + 1) 3 (by omega)
    have h4 := @ofNat_ne_fin (b + 1) 4 (by omega)
    rw [normalizeResolution_unmapped _ _ (by simpa using h2) (by simpa using h3)
      (by simpa using h4)]
    rfl
  · intro d le xn xd yn yd unit h hu
    rw [getImageResolution_exifImage h]
    cases unit with
    | none =>
      rw [normalizeResolution_unmapped _ _ (by simp) (by simp) (by simp)]
      rfl
    | some u =>
      obtain ⟨u2, u3, u4⟩ := hu u rfl
      have h2 := @ofNat_ne_fin u 2 u2
      have h3 := @ofNat_ne_fin u 3 u3
      have h4 := @ofNat_ne_fin u 4 u4
      rw [normalizeResolution_unmapped _ _ (by simpa using h2) (by simpa using h3)
        (by simpa using h4)]
      rfl

/-- C8, witness: unit 1 and an absent unit in the normalizer, a JFIF header
with unit byte 0, an EXIF file without tag 296 and one with tag 296 = 1. -/
theorem unmapped_unit_witness :
    normalizeResolution (some (.fin 96)) (some (.fin 96)) (some (.fin 1)) = .fin 72 ∧
    normalizeResolution (some (.fin 96)) (some (.fin 96)) none = .fin 72 ∧
    getImageResolution jfifUnit0 = some (.fin 72) ∧
    getImageResolution exifNoUnit = some (.fin 72) ∧
    getImageResolution exifUnit1 = some (.fin 72) :=
  ⟨unmapped_unit.1 _ _ _ (by decide) (by decide) (by decide),
   unmapped_unit.1 _ _ _ (by decide) (by decide) (by decide),
   unmapped_unit.2.1 jfifUnit0 0 96 96 (by decide) (by decide) (by decide) (by decide)
     (by decide),
   unmapped_unit.2.2 exifNoUnit true 300 1 300 1 none
     ⟨8, 2, 0, 1, by decide, by decide, by decide, by decide, by decide, by decide⟩
     (by simp),
   unmapped_unit.2.2 exifUnit1 false 300 1 300 1 (some 1)
     ⟨8, 3, 0, 1, by decide, by decide, by decide, by decide, by decide, 2, by decide,
       by decide⟩ (by simp)⟩

/-! ## C2 and C9: two zero denominators -/

/-- What the normalizer returns is truthy: never `NaN`, never 0. -/
theorem normalizeResolution_truthy (x y unit : JSVal) :
    truthy (some (normalizeResolution x y unit)) = true := by
  have h72 : truthy (some DEFAULT_RESOLUTION) = true := by decide
  have hor : ∀ a : JSVal, truthy (some (jsOr a DEFAULT_RESOLUTION)) = true := by
    intro a
    cases a with
    | none => exact h72
    | some n =>
      by_cases hn : truthy (some n) = true
      · simp [jsOr, hn]
      · simp only [jsOr, hn]
        exact h72
  unfold normalizeResolution
  split
  · exact h72
  · exact hor _

/-- The part of C2 that the code keeps: the result is a Number that is neither
`NaN` nor 0 (it can be `Infinity`). -/
theorem getImageResolution_truthy (d : DataView) :
    ∃ v, getImageResolution d = some v ∧ truthy (some v) = true := by
  have h72 : truthy (some DEFAULT_RESOLUTION) = true := by decide
  obtain ⟨r, hr⟩ := tryBlock_returns d
  cases r with
  | error e => exact ⟨_, getImageResolution_of_error hr, h72⟩
  | ok v =>
    refine ⟨v, by simp [getImageResolution, hr], ?_⟩
    unfold tryBlock at hr
    split at hr
    · simp at hr
    · simp only [Option.some.injEq] at hr
      simp only [getJpgResolution, bind, Except.bind, pure, Except.pure] at hr
      repeat (split at hr; · simp at hr)
      simp only [Except.ok.injEq] at hr
      rw [← hr]; exact normalizeResolution_truthy _ _ _
    · split at hr
      · simp at hr
      · simp only [Option.some.injEq] at hr
        simp only [getJfifResolution, bind, Except.bind, pure, Except.pure] at hr
        repeat (split at hr; · simp at hr)
        simp only [Except.ok.injEq] at hr
        rw [← hr]; exact normalizeResolution_truthy _ _ _
      · split at hr
        · simp at hr
        · simp only [getPngResolution, getPngResolutionFuel] at hr
          cases hl : pngLoop d (d.length + 1) 8 Candidate.empty with
          | none => simp [hl] at hr
          | some r' =>
            cases r' with
            | error e => simp [hl, Except.map] at hr
            | ok c =>
              simp [hl, Except.map] at hr
              rw [← hr]; exact normalizeResolution_truthy _ _ _
        · simp only [Option.some.injEq, Except.ok.injEq] at hr
          rw [← hr]; exact h72

/-- The normalizer lets `Infinity` through: it is equal to itself and truthy. -/
theorem normalizeResolution_inf :
    normalizeResolution (some .inf) (some .inf) (some (.fin 2)) = .inf ∧
    normalizeResolution (some .inf) (some .inf) (some (.fin 3)) = .inf ∧
    normalizeResolution (some .inf) (some .inf) (some (.fin 4)) = .inf := by
  decide!

/-- C2: on the EXIF file whose tags 282 and 283 point to the rational 1/0, with
unit 2, the result is `Infinity`, not a finite number. -/
theorem getImageResolution_exifZeroDen : getImageResolution exifZeroDen = some .inf := by
  decide!

/-- C9: on the EXIF file with the rationals 72/0 and 96/0 and unit 3 the
result is `Infinity`, not 72. -/
theorem getImageResolution_exifZeroDenCm : getImageResolution exifZeroDenCm = some .inf := by
  decide!


/-! ## C11: a bad byte-order marker -/

theorem getJpgResolution_of_bad_marker {d : DataView}
    (h1 : u16At d 12 false ≠ 0x4949) (h2 : u16At d 12 false ≠ 0x4d4d) :
    ∃ e, getJpgResolution d = .error e := by
  unfold getJpgResolution
  cases h : getUint16 d 12 false with
  | error e => exact ⟨e, by simp [bind, Except.bind]⟩
  | ok v =>
    have hv := (getUint16_ok_iff.mp h).2
    rw [hv] at h1 h2
    exact ⟨.tiffByteOrder, by simp [bind, Except.bind, isLittleEndian, h1, h2]⟩

/-- C11: a buffer with the EXIF signature whose 16 bits at 12 are neither
`0x4949` nor `0x4D4D` gives 72, whatever its other bytes are; and
`isLittleEndian` returns `true` exactly for `0x4949`, `false` exactly for
`0x4D4D`, and throws for every other value. -/
theorem bad_byte_order :
    (∀ d : DataView, getUint16 d 2 false = .ok 0xffe1 →
      getUint32 d 6 false = .ok 0x45786966 →
      u16At d 12 false ≠ 0x4949 → u16At d 12 false ≠ 0x4d4d →
      getImageResolution d = some (.fin 72)) ∧
    (∀ v : Nat, isLittleEndian v = .ok true ↔ v = 0x4949) ∧
    (∀ v : Nat, isLittleEndian v = .ok false ↔ v = 0x4d4d) ∧
    (∀ v : Nat, (v ≠ 0x4949 ∧ v ≠ 0x4d4d) ↔ isLittleEndian v = .error .tiffByteOrder) := by
  refine ⟨?_, ?_, ?_, ?_⟩
  · intro d hs1 hs2 h1 h2
    have hE : isEXIF d = .ok true := (isEXIF_eq_true_iff d).mpr ⟨hs1, hs2⟩
    obtain ⟨e, he⟩ := getJpgResolution_of_bad_marker h1 h2
    exact getImageResolution_of_error ((tryBlock_of_isEXIF hE).trans (by rw [he]))
  · intro v
    unfold isLittleEndian
    by_cases h1 : v = 0x4949
    · simp [h1]
    · by_cases h2 : v = 0x4d4d
      · simp [h2]
      · simp [h1, h2]
  · intro v
    unfold isLittleEndian
    by_cases h1 : v = 0x4949
    · simp [h1]
    · by_cases h2 : v = 0x4d4d
      · simp [h2]
      · simp [h1, h2]
  · intro v
    unfold isLittleEndian
    by_cases h1 : v = 0x4949
    · simp [h1]
    · by_cases h2 : v = 0x4d4d
      · simp [h2]
      · simp [h1, h2]

/-- C11, witness: the EXIF signature followed by the marker `AB` gives 72. -/
theorem bad_byte_order_witness :
    getImageResolution [0xff, 0xd8, 0xff, 0xe1, 0, 16, 0x45, 0x78, 0x69, 0x66, 0, 0, 0x41, 0x42,
      0, 42, 0, 0, 0, 8] = some (.fin 72) :=
  bad_byte_order.1 _ (by decide) (by decide) (by decide) (by decide)

/-! ## C13: the order of the signature predicates -/

/-- C13: the EXIF predicate never holds together with the JFIF or the PNG
predicate; and when the JFIF and the PNG predicate both hold, the result is
the JFIF reader's: the normalizer's on the fields at 14, 16 and 13 (plus 1)
when the buffer has 18 bytes, and 72 when it is shorter. -/
theorem sniffer_priority (d : DataView) :
    ¬ (isEXIF d = .ok true ∧ isJFIF d = .ok true) ∧
    ¬ (isEXIF d = .ok true ∧ isPNG d = .ok true) ∧
    (isJFIF d = .ok true → isPNG d = .ok true →
      getImageResolution d = some
        (match getJfifResolution d with
         | .ok v => v
         | .error _ => .fin 72) ∧
      (18 ≤ d.length → getImageResolution d = some (normalizeResolution
        (some (JSNum.ofNat (u16At d 14 false))) (some (JSNum.ofNat (u16At d 16 false)))
        (some (JSNum.ofNat (byteAt d 13 + 1))))) ∧
      (d.length < 18 → getImageResolution d = some (.fin 72))) := by
  refine ⟨?_, ?_, ?_⟩
  · rintro ⟨hE, hJ⟩
    have h1 := ((isEXIF_eq_true_iff d).mp hE).2
    have h2 := (isJFIF_eq_true_iff d).mp hJ
    rw [h1] at h2
    simp [EXIF_MARKER, JFIF_MARKER] at h2
  · rintro ⟨hE, hP⟩
    have h1 := (getUint16_ok_iff.mp ((isEXIF_eq_true_iff d).mp hE).1).2
    have h2 := (getUint8_ok_iff.mp ((isPNG_eq_true_iff d).mp hP).2.1).2
    have h3 := byteAt_lt d 3
    have h1' : 256 * byteAt d 2 + byteAt d 3 = 65505 := by
      simpa [u16At] using h1
    have h2' : byteAt d 2 = 78 := h2
    omega
  · intro hJ hP
    have hsig := (isJFIF_eq_true_iff d).mp hJ
    have hE : isEXIF d = .ok false := isEXIF_eq_false_of hsig (by decide)
    have hres : getImageResolution d = some
        (match getJfifResolution d with
         | .ok v => v
         | .error _ => .fin 72) := by
      rw [getImageResolution, tryBlock_of_isJFIF hE hJ]
      rfl
    refine ⟨hres, ?_, ?_⟩
    · intro hlen
      exact getImageResolution_jfif hsig (getUint8_of_le (by omega)) (getUint16_of_le (by omega))
        (getUint16_of_le (by omega))
    · intro hlen
      rw [hres]
      have : getJfifResolution d = .error .rangeError := by
        unfold getJfifResolution
        by_cases h13 : 13 + 1 ≤ d.length
        · rw [getUint8_of_le h13]
          by_cases h14 : 14 + 2 ≤ d.length
          · rw [getUint16_of_le h14, getUint16_of_lt (show d.length < 16 + 2 by omega)]
            rfl
          · rw [getUint16_of_lt (show d.length < 14 + 2 by omega)]
            rfl
        · rw [getUint8_of_lt (show d.length < 13 + 1 by omega)]
          rfl
      rw [this]

/-- C13, witness: on a buffer with `PNG` at 1 to 3 and `JFIF` at 6 to 9, unit
byte 1 and X = Y = 96, the result is the JFIF reader's 96, while the PNG
reader gives 72 on it. -/
theorem sniffer_priority_witness :
    getImageResolution jfifPng = some (.fin 96) ∧
      getPngResolution jfifPng = some (.ok (.fin 72)) :=
  ⟨(((sniffer_priority jfifPng).2.2 (by decide) (by decide)).2.1 (by decide)).trans
      (by decide),
    by decide⟩


/-! ## C12: one of X and Y absent -/

theorem strictEq_some_none (n : JSNum) : strictEq (some n) none = false := by
  cases n <;> rfl

theorem strictEq_none_some (n : JSNum) : strictEq none (some n) = false := by
  cases n <;> rfl

theorem exif_Y_of_none {d : DataView} {le : Bool} {ifd count : Nat} {c0 c : Candidate}
    (hh : ExifHeader d le ifd count) (hloop : jpgLoop d le count (ifd + 14) c0 = .ok c)
    (ho : NoEntry d le ifd count 283) :
    c.YResolution = c0.YResolution := by
  have hlen := hh.2.2.2.2.2
  simp only [entryAt] at hlen
  exact jpgLoop_field_preserved (fun c => c.YResolution) 283
    (fun s c c' hin h ht => jpgEntry_Y hin h ht) count (ifd + 14) c0 c hlen hloop ho

/-- C12, as the code has it: the fallback is taken whenever `x !== y`, which
is also the case when exactly one of `x` and `y` is absent; the result is
computed from `x` and the unit only when `x === y`. So `x` present and `y`
absent give 72 for every unit, and an EXIF directory with one entry for tag
282 and none for tag 283 gives 72. -/
theorem fallback_when_one_absent :
    (∀ x y unit : JSVal, strictEq x y = false → normalizeResolution x y unit = .fin 72) ∧
    (∀ x y unit : JSVal, strictEq x y = true → normalizeResolution x y unit =
      jsOr (if strictEq unit (some (.fin 2)) then x
            else if strictEq unit (some (.fin 3)) then some (fmul (toNumber x) lit_2_54)
            else if strictEq unit (some (.fin 4)) then
              some (mathRound (fdiv (toNumber x) lit_39_37))
            else none) (.fin 72)) ∧
    (∀ (n : JSNum) (unit : JSVal), normalizeResolution (some n) none unit = .fin 72 ∧
      normalizeResolution none (some n) unit = .fin 72) ∧
    (∀ (d : DataView) (le : Bool) (ifd count ix n dd : Nat), ExifHeader d le ifd count →
      OnlyEntry d le ifd count 282 ix → NoEntry d le ifd count 283 →
      RationalAt d le ifd ix n dd → getImageResolution d = some (.fin 72)) := by
  refine ⟨fun x y unit h => normalizeResolution_of_ne unit h, ?_, ?_, ?_⟩
  · intro x y unit h
    simp [normalizeResolution, h, DEFAULT_RESOLUTION]
  · intro n unit
    exact ⟨normalizeResolution_of_ne unit (strictEq_some_none n),
      normalizeResolution_of_ne unit (strictEq_none_some n)⟩
  · intro d le ifd count ix n dd hh hx hy hrx
    have hlen := hh.2.2.2.2.2
    simp only [entryAt] at hlen
    obtain ⟨c, hloop⟩ := @jpgLoop_ok d le count (ifd + 14) Candidate.empty hlen
      (fun j hj ht => by
        rcases ht with ht | ht
        · have := (hx.2 j hj).mp ht
          subst this
          exact ⟨_, getRational_at hh hj hrx⟩
        · exact absurd ht (hy j hj))
    rw [getImageResolution_exif hh (by simpa [entryAt] using hloop),
      exif_X_of_only hh hloop hx hrx, exif_Y_of_none hh hloop hy]
    rw [show Candidate.empty.YResolution = none from rfl,
      normalizeResolution_of_ne _ (strictEq_some_none _)]
    rfl

/-- C12, witness: the EXIF file with tag 282 = 300/1, tag 296 = 2 and no tag
283 gives 72. -/
theorem fallback_when_one_absent_witness :
    getImageResolution exifNoY = some (.fin 72) :=
  fallback_when_one_absent.2.2.2 exifNoY true 8 2 0 300 1 (by decide) (by decide) (by decide)
    (by decide)

/-- C12, counterexample: with `x` = 300 present, `y` absent and unit 2 the
normalizer returns 72, not 300, and so does `getImageResolution` on the EXIF
file with tag 282 = 300/1, tag 296 = 2 and no tag 283. -/
theorem one_absent_counterexample :
    normalizeResolution (some (.fin 300)) none (some (.fin 2)) = .fin 72 ∧
    normalizeResolution (some (.fin 300)) none (some (.fin 2)) ≠ .fin 300 ∧
    getImageResolution exifNoY = some (.fin 72) ∧
    getImageResolution exifNoY ≠ some (.fin 300) := by
  decide!


/-! ## C14: short buffers and the signature predicates -/

theorem getImageResolution_of_short {d : DataView} (h : d.length < 10) :
    getImageResolution d = some (.fin 72) := by
  have hJ : isJFIF d = .error .rangeError := by
    simp [isJFIF, getUint32_of_lt (show d.length < 6 + 4 by omega), bind, Except.bind]
  cases hE : isEXIF d with
  | error e => exact getImageResolution_of_error (tryBlock_of_isEXIF_error hE)
  | ok b =>
    cases b with
    | true =>
      have := (getUint32_ok_iff.mp ((isEXIF_eq_true_iff d).mp hE).2).1
      omega
    | false => exact getImageResolution_of_error (tryBlock_of_isJFIF_error hE hJ)

/-- On a buffer shorter than 12 bytes the PNG reader returns 72 or throws. -/
theorem getPngResolution_of_short {d : DataView} (h : d.length < 12) :
    getPngResolution d = some (.ok (.fin 72)) ∨ ∃ e, getPngResolution d = some (.error e) := by
  unfold getPngResolution getPngResolutionFuel
  rw [pngLoop]
  by_cases hlt : 8 < d.length
  · right
    have hc : pngChunk d 8 Candidate.empty = .error .rangeError := by
      simp [pngChunk, getUint32_of_lt (show d.length < 8 + 4 by omega), bind, Except.bind]
    exact ⟨.rangeError, by simp [hlt, hc, Except.map]⟩
  · left
    simp only [if_neg hlt, Option.map_some']
    rfl

theorem isEXIF_ok_of_ten {d : DataView} (h : 10 ≤ d.length) : ∃ b, isEXIF d = .ok b := by
  unfold isEXIF
  rw [getUint16_of_le (show 2 + 2 ≤ d.length by omega),
    getUint32_of_le (show 6 + 4 ≤ d.length by omega)]
  by_cases ha : u16At d 2 false = 0xffe1
  · exact ⟨_, by simp [bind, Except.bind, ha, pure, Except.pure]; rfl⟩
  · exact ⟨false, by simp [bind, Except.bind, ha, pure, Except.pure]⟩

theorem isJFIF_ok_of_ten {d : DataView} (h : 10 ≤ d.length) : ∃ b, isJFIF d = .ok b := by
  unfold isJFIF
  rw [getUint32_of_le (show 6 + 4 ≤ d.length by omega)]
  exact ⟨_, rfl⟩

theorem isPNG_ok_of_four {d : DataView} (h : 4 ≤ d.length) : ∃ b, isPNG d = .ok b := by
  unfold isPNG
  rw [getUint8_of_le (show 1 + 1 ≤ d.length by omega),
    getUint8_of_le (show 2 + 1 ≤ d.length by omega),
    getUint8_of_le (show 3 + 1 ≤ d.length by omega)]
  by_cases ha : byteAt d 1 = 80
  · by_cases hb : byteAt d 2 = 78
    · exact ⟨_, by simp [bind, Except.bind, ha, hb, pure, Except.pure]; rfl⟩
    · exact ⟨false, by simp [bind, Except.bind, ha, hb, pure, Except.pure]⟩
  · exact ⟨false, by simp [bind, Except.bind, ha, pure, Except.pure]⟩

/-- C14: on every buffer `getImageResolution` returns what the variant returns
in which `isEXIF`, `isJFIF` and `isPNG` give `false` instead of throwing on a
read outside the buffer and the next predicate is then evaluated. -/
theorem lenient_sniffing_refines (d : DataView) :
    getImageResolution d = getImageResolutionLenient d := by
  by_cases hlen : d.length < 10
  · rw [getImageResolution_of_short hlen]
    have hE : isEXIFLenient d = false := by
      unfold isEXIFLenient
      cases hE : isEXIF d with
      | error e => rfl
      | ok b =>
        cases b with
        | true =>
          have := (getUint32_ok_iff.mp ((isEXIF_eq_true_iff d).mp hE).2).1
          omega
        | false => rfl
    have hJ : isJFIFLenient d = false := by
      unfold isJFIFLenient
      simp [isJFIF, getUint32_of_lt (show d.length < 6 + 4 by omega), bind, Except.bind]
    unfold getImageResolutionLenient
    simp only [hE, hJ, Bool.false_eq_true, if_false]
    by_cases hP : isPNGLenient d = true
    · simp only [hP, if_true]
      rcases getPngResolution_of_short (show d.length < 12 by omega) with h | ⟨e, h⟩
      · rw [h]; rfl
      · rw [h]; rfl
    · simp only [hP, if_false]
      rfl
  · obtain ⟨b1, h1⟩ := isEXIF_ok_of_ten (show 10 ≤ d.length by omega)
    obtain ⟨b2, h2⟩ := isJFIF_ok_of_ten (show 10 ≤ d.length by omega)
    obtain ⟨b3, h3⟩ := isPNG_ok_of_four (show 4 ≤ d.length by omega)
    unfold getImageResolution getImageResolutionLenient tryBlock isEXIFLenient isJFIFLenient
      isPNGLenient
    rw [h1, h2, h3]
    cases b1 <;> cases b2 <;> cases b3 <;> rfl

/-- The two differ in the path they take: on the four bytes `\x89PNG` the
code's `isJFIF` throws, while the variant goes on to the PNG reader; both
return 72. -/
theorem lenient_sniffing_paths :
    isJFIF [0x89, 80, 78, 71] = .error .rangeError ∧
    isPNGLenient [0x89, 80, 78, 71] = true ∧
    getImageResolution [0x89, 80, 78, 71] = some (.fin 72) ∧
    getImageResolutionLenient [0x89, 80, 78, 71] = some (.fin 72) := by
  decide


/-! ## C15: the last `pHYs` chunk wins -/

/-- The chunk starts of a well-formed sequence are at least `pos` and increase
by at least 12. -/
theorem chunksFrom_ge {d : DataView} :
    ∀ (ps : List Nat) (pos : Nat), chunksFrom d pos ps = true → ∀ q ∈ ps, pos ≤ q := by
  intro ps
  induction ps with
  | nil => intro pos _ q hq; simp at hq
  | cons p ps ih =>
    intro pos h q hq
    obtain ⟨hp, -, hrest⟩ := chunksFrom_cons h
    rcases List.mem_cons.mp hq with rfl | hq'
    · omega
    · have := ih _ hrest q hq'
      omega

theorem chunksFrom_before {d : DataView} {p : Nat} {l2 : List Nat} :
    ∀ (l1 : List Nat) (pos : Nat), chunksFrom d pos (l1 ++ p :: l2) = true →
      ∀ q ∈ l1, q + 12 ≤ p := by
  intro l1
  induction l1 with
  | nil => intro pos _ q hq; simp at hq
  | cons a l1 ih =>
    intro pos h q hq
    obtain ⟨ha, -, hrest⟩ := chunksFrom_cons h
    rcases List.mem_cons.mp hq with rfl | hq'
    · have := chunksFrom_ge _ _ hrest p (by simp)
      omega
    · exact ih _ hrest q hq'

/-- C15: on a PNG signature followed by complete chunks that end exactly at the
end of the buffer, with any number of `pHYs` chunks, the result is the
normalizer's on X, Y and unit byte + 3 of the last `pHYs` chunk `p` (whose
nine data bytes lie inside the buffer), wherever it stands: `l2`, the chunks
after it, holds no `pHYs` chunk and may be empty, so `p` may come after
`IEND`; the chunks `l1` before it, `pHYs` or not, do not enter the result. -/
theorem last_pHYs_wins (d : DataView) (l1 l2 : List Nat) (p : Nat)
    (hsig : d.take 8 = pngSignature) (hchunks : chunksFrom d 8 (l1 ++ p :: l2) = true)
    (hp : chunkType d p = pHYs) (hin : p + 17 ≤ d.length)
    (hl2 : ∀ q ∈ l2, chunkType d q ≠ pHYs) :
    getImageResolution d = some (normalizeResolution
      (some (JSNum.ofNat (u32At d (p + 8) false))) (some (JSNum.ofNat (u32At d (p + 12) false)))
      (some (JSNum.ofNat (byteAt d (p + 16) + 3)))) := by
  have hl1 : ∀ q ∈ l1, chunkType d q = pHYs → q + 17 ≤ d.length := by
    intro q hq _
    have := chunksFrom_before l1 8 hchunks q hq
    omega
  exact getImageResolution_png hsig hchunks hp hin hl1 hl2

/-- C15, witness: signature, `IHDR`, `pHYs` (2835, 2835, unit 1), `IEND`, `pHYs`
(100, 100, unit 0): the result is that of the second `pHYs` chunk, after
`IEND`, 100 * 2.54 = 254, and not the 72 of the first. -/
theorem last_pHYs_wins_witness :
    chunkType pngTwoPhys 33 = pHYs ∧ chunkType pngTwoPhys 54 = (73, 69, 78, 68) ∧
    getImageResolution pngTwoPhys = some (.fin 254) :=
  ⟨by decide, by decide,
   (last_pHYs_wins pngTwoPhys [8, 33, 54] [] 66 (by decide) (by decide) (by decide) (by decide)
      (by decide)).trans (by decide!)⟩

/-! ## C18: the PNG unit byte -/

theorem fmul_lit_2_54 (q : ℚ) :
    fmul (.fin q) lit_2_54 = roundToDouble (q * (2859785763380265 / 1125899906842624)) := by
  rw [lit_2_54_eq]
  rfl

/-- A positive 32-bit value times `2.54` is a finite, strictly positive double. -/
theorem fmul_lit_2_54_pos {v : Nat} (hv : 0 < v) (hv' : v < 4294967296) :
    ∃ r : ℚ, fmul (JSNum.ofNat v) lit_2_54 = .fin r ∧ 0 < r := by
  have h1 : (1 : ℚ) ≤ (v : ℚ) := by exact_mod_cast hv
  have h2 : (v : ℚ) < 4294967296 := by exact_mod_cast hv'
  have e1 : pow2 0 = 1 := by rw [pow2_eq_zpow]; norm_num
  have e2 : pow2 34 = 17179869184 := by rw [pow2_eq_zpow]; norm_num
  have hlo : pow2 (-1074) ≤ (v : ℚ) * (2859785763380265 / 1125899906842624) := by
    refine le_trans (pow2_le_pow2 (show (-1074 : ℤ) ≤ 0 by norm_num)) ?_
    rw [e1]
    linarith
  have hhi : (v : ℚ) * (2859785763380265 / 1125899906842624) < pow2 1023 := by
    refine lt_of_lt_of_le ?_ (pow2_le_pow2 (show (34 : ℤ) ≤ 1023 by norm_num))
    rw [e2]
    linarith
  rw [JSNum.ofNat, fmul_lit_2_54]
  exact roundToDouble_pos hlo hhi

/-- C18: on a PNG signature followed by complete chunks that end exactly at the
end of the buffer, exactly one of them of type `pHYs`, with X = Y = `v` > 0
and unit byte `u`: `u` = 0 gives `v * 2.54` (unit 3), `u` = 1 gives
`Math.round(v / 39.37007874015748)`, or 72 when that is zero (unit 4), and
every `u` ≥ 2 gives 72. -/
theorem png_unit_byte (d : DataView) (ps : List Nat) (p v u : Nat)
    (hsig : d.take 8 = pngSignature) (hchunks : chunksFrom d 8 ps = true)
    (hmem : p ∈ ps) (hp : chunkType d p = pHYs)
    (huniq : ∀ q ∈ ps, chunkType d q = pHYs → q = p)
    (hx : getUint32 d (p + 8) false = .ok v) (hy : getUint32 d (p + 12) false = .ok v)
    (hu : getUint8 d (p + 16) = .ok u) (hv : 0 < v) :
    getImageResolution d = some
      (if u = 0 then fmul (JSNum.ofNat v) lit_2_54
       else if u = 1 then
         (if mathRound (fdiv (JSNum.ofNat v) lit_39_37) = .fin 0 then .fin 72
          else mathRound (fdiv (JSNum.ofNat v) lit_39_37))
       else .fin 72) := by
  obtain ⟨hin, hu'⟩ := getUint8_ok_iff.mp hu
  obtain ⟨-, hx'⟩ := getUint32_ok_iff.mp hx
  obtain ⟨-, hy'⟩ := getUint32_ok_iff.mp hy
  have hv' : v < 4294967296 := by rw [← hx']; exact u32At_lt _ _ _
  obtain ⟨s, t, hst, hps⟩ := List.eq_append_cons_of_mem (List.mem_reverse.mpr hmem)
  have hsplit : ps = t.reverse ++ p :: s.reverse := by
    have := congrArg List.reverse hst
    simpa using this
  subst hsplit
  have hl1 : ∀ q ∈ t.reverse, chunkType d q = pHYs → q + 17 ≤ d.length := by
    intro q hq ht
    have := huniq q (by simp [List.mem_reverse.mp hq]) ht
    omega
  have hl2 : ∀ q ∈ s.reverse, chunkType d q ≠ pHYs := by
    intro q hq ht
    have := huniq q (by simp [List.mem_reverse.mp hq]) ht
    subst this
    exact hps (List.mem_reverse.mp hq)
  rw [getImageResolution_png hsig hchunks hp (by omega) hl1 hl2, hx', hy', hu']
  have hxy : strictEq (some (JSNum.ofNat v)) (some (JSNum.ofNat v)) = true := by
    simp [strictEq_ofNat]
  by_cases h0 : u = 0
  · subst h0
    have h3 : (some (JSNum.ofNat (0 + 3)) : JSVal) = some (.fin 3) := by
      simp [JSNum.ofNat]
    obtain ⟨r, hr, hpos⟩ := fmul_lit_2_54_pos hv hv'
    rw [h3, normalizeResolution_unit3 hxy]
    simp only [toNumber, if_true]
    rw [hr, jsOr_of_pos hpos]
  · by_cases h1 : u = 1
    · subst h1
      have h4 : (some (JSNum.ofNat (1 + 3)) : JSVal) = some (.fin 4) := by
        simp [JSNum.ofNat]
      rw [h4, normalizeResolution_unit4 hxy]
      simp only [toNumber]
      have hne : mathRound (fdiv (JSNum.ofNat v) lit_39_37) ≠ .nan := by
        apply mathRound_ne_nan
        rw [JSNum.ofNat, fdiv_lit_39_37]
        exact roundToDouble_ne_nan _
      rw [jsOr_of_ne_nan hne]
      simp [DEFAULT_RESOLUTION]
    · have e2 := @ofNat_ne_fin (u + 3) 2 (by omega)
      have e3 := @ofNat_ne_fin (u + 3) 3 (by omega)
      have e4 := @ofNat_ne_fin (u + 3) 4 (by omega)
      rw [normalizeResolution_unmapped _ _ (by simpa using e2) (by simpa using e3)
        (by simpa using e4)]
      simp [h0, h1, DEFAULT_RESOLUTION]

/-- C18, witness: X = Y = 100 with unit byte 0 gives 254, X = Y = 2835 with
unit byte 1 gives 72 (the rounded 72.009), X = Y = 300 with unit byte 2 gives
the default 72. -/
theorem png_unit_byte_witness :
    getImageResolution png100unit0 = some (.fin 254) ∧
    getImageResolution png2835 = some (.fin 72) ∧
    getImageResolution png300unit2 = some (.fin 72) :=
  ⟨(png_unit_byte png100unit0 [8, 33, 54] 33 100 0 (by decide) (by decide) (by decide)
      (by decide) (by decide) (by decide) (by decide) (by decide) (by decide)).trans
      (by decide!),
   (png_unit_byte png2835 [8, 33, 54] 33 2835 1 (by decide) (by decide) (by decide)
      (by decide) (by decide) (by decide) (by decide) (by decide) (by decide)).trans
      (by decide!),
   (png_unit_byte png300unit2 [8, 33, 54] 33 300 2 (by decide) (by decide) (by decide)
      (by decide) (by decide) (by decide) (by decide) (by decide) (by decide)).trans
      (by decide!)⟩


/-! ## C16: a failure late in a walk -/

theorem tryBlock_of_signature_ten {d : DataView} (hsig : d.take 8 = pngSignature)
    (hlen : 10 ≤ d.length) : tryBlock d = getPngResolution d := by
  obtain ⟨-, h1, h2, h3, h6, h7⟩ := byteAt_of_signature hsig
  have h8 := byteAt_lt d 8
  have h9 := byteAt_lt d 9
  have hu : getUint32 d 6 false = .ok (u32At d 6 false) := getUint32_of_le (by omega)
  have hval : u32At d 6 false = 16777216 * 26 + 65536 * 10 + 256 * byteAt d 8 + byteAt d 9 := by
    simp [u32At, h6, h7]
  have hE : isEXIF d = .ok false :=
    isEXIF_eq_false_of hu (by rw [hval]; simp only [EXIF_MARKER]; omega)
  have hJ : isJFIF d = .ok false :=
    isJFIF_eq_false_of hu (by rw [hval]; simp only [JFIF_MARKER]; omega)
  have hP : isPNG d = .ok true :=
    (isPNG_eq_true_iff d).mpr
      ⟨getUint8_ok_iff.mpr ⟨by omega, h1⟩, getUint8_ok_iff.mpr ⟨by omega, h2⟩,
        getUint8_ok_iff.mpr ⟨by omega, h3⟩⟩
  exact tryBlock_of_isPNG hE hJ hP

theorem chunksUpTo_cons {d : DataView} {pos p stop : Nat} {ps : List Nat}
    (h : chunksUpTo d pos (p :: ps) stop = true) :
    p = pos ∧ pos + 12 + u32At d pos false ≤ d.length ∧
      chunksUpTo d (pos + 12 + u32At d pos false) ps stop = true := by
  simpa [chunksUpTo, and_assoc] using h

theorem chunksUpTo_length {d : DataView} {stop : Nat} :
    ∀ (ps : List Nat) (pos : Nat), chunksUpTo d pos ps stop = true →
      pos + 12 * ps.length ≤ stop := by
  intro ps
  induction ps with
  | nil => intro pos h; simp [chunksUpTo] at h; simp [h]
  | cons p ps ih =>
    intro pos h
    obtain ⟨-, -, h3⟩ := chunksUpTo_cons h
    have := ih _ h3
    simp only [List.length_cons]
    omega

/-- An iteration entered less than 8 bytes before the end of the buffer throws. -/
theorem pngChunk_error_of_short {d : DataView} {pos : Nat} (c : Candidate)
    (h : d.length < pos + 8) : ∃ e, pngChunk d pos c = .error e := by
  cases hc : pngChunk d pos c with
  | error e => exact ⟨e, rfl⟩
  | ok pc =>
    obtain ⟨pos', c'⟩ := pc
    have := (pngChunk_pos hc).2
    omega

/-- A walk whose cursor comes to stand less than 8 bytes before the end of the
buffer throws, whatever it has read before. -/
theorem pngLoop_error_of_stray {d : DataView} {stop : Nat} (h1 : stop < d.length)
    (h2 : d.length < stop + 8) :
    ∀ (ps : List Nat) (pos fuel : Nat) (c : Candidate), chunksUpTo d pos ps stop = true →
      ps.length < fuel → ∃ e, pngLoop d fuel pos c = some (.error e) := by
  intro ps
  induction ps with
  | nil =>
    intro pos fuel c h hf
    obtain ⟨f, rfl⟩ : ∃ f, fuel = f + 1 := ⟨fuel - 1, by simp at hf; omega⟩
    have hpos : pos = stop := by simpa [chunksUpTo] using h
    subst hpos
    obtain ⟨e, he⟩ := pngChunk_error_of_short c h2
    exact ⟨e, by rw [pngLoop, if_pos h1, he]⟩
  | cons p ps ih =>
    intro pos fuel c h hf
    obtain ⟨f, rfl⟩ : ∃ f, fuel = f + 1 := ⟨fuel - 1, by simp at hf; omega⟩
    obtain ⟨hp, hle, hrest⟩ := chunksUpTo_cons h
    subst hp
    rw [pngLoop, if_pos (show p < d.length by omega)]
    cases hc : pngChunk d p c with
    | error e => exact ⟨e, rfl⟩
    | ok pc =>
      obtain ⟨pos', c'⟩ := pc
      have hp' := (pngChunk_pos hc).1
      subst hp'
      exact ih _ f c' hrest (by simpa using hf)

/-- The loop throws when the tag of one of its entries is outside the buffer. -/
theorem jpgLoop_error_of_tag_outside {d : DataView} {le : Bool} :
    ∀ (m s j : Nat) (c : Candidate), j < m → d.length < s + 12 * j + 2 →
      ∃ e, jpgLoop d le m s c = .error e := by
  intro m
  induction m with
  | zero => intro s j c hj; omega
  | succ m ih =>
    intro s j c hj hout
    rw [jpgLoop]
    cases h1 : jpgEntry d le s c with
    | error e => exact ⟨e, by simp [bind, Except.bind]⟩
    | ok c1 =>
      cases j with
      | zero =>
        have : jpgEntry d le s c = .error .rangeError := by
          simp [jpgEntry, getUint16_of_lt (show d.length < s + 2 by omega), bind, Except.bind]
        rw [this] at h1
        cases h1
      | succ j =>
        obtain ⟨e, he⟩ := ih (s + 12) j c1 (by omega) (by omega)
        exact ⟨e, by simpa [bind, Except.bind] using he⟩

/-- C16, as the code has it: a PNG buffer whose walk over complete chunks
brings the cursor to a position `stop` with `stop < length < stop + 8` gives
72, whatever `pHYs` chunks were read before; and an EXIF buffer whose
directory declares an entry whose 2-byte tag is not inside the buffer gives
72, whatever entries were read before. -/
theorem late_failure_discards :
    (∀ (d : DataView) (ps : List Nat) (stop : Nat), d.take 8 = pngSignature →
      chunksUpTo d 8 ps stop = true → stop < d.length → d.length < stop + 8 →
      getImageResolution d = some (.fin 72)) ∧
    (∀ (d : DataView) (le : Bool) (ifd count j : Nat),
      getUint16 d 2 false = .ok 0xffe1 → getUint32 d 6 false = .ok 0x45786966 →
      getUint16 d 12 false = .ok (if le then 0x4949 else 0x4d4d) →
      getUint32 d 16 le = .ok ifd → getUint16 d (ifd + 12) le = .ok count →
      j < count → d.length < entryAt ifd j + 2 →
      getImageResolution d = some (.fin 72)) := by
  refine ⟨?_, ?_⟩
  · intro d ps stop hsig hchunks h1 h2
    by_cases hlen : d.length < 10
    · exact getImageResolution_of_short hlen
    · have hl := chunksUpTo_length _ _ hchunks
      obtain ⟨e, he⟩ := pngLoop_error_of_stray h1 h2 ps 8 (d.length + 1) Candidate.empty
        hchunks (by omega)
      apply @getImageResolution_of_error d e
      rw [tryBlock_of_signature_ten hsig (by omega), getPngResolution, getPngResolutionFuel, he]
      rfl
  · intro d le ifd count j hs1 hs2 hbo hifd hcount hj hout
    have hE : isEXIF d = .ok true := (isEXIF_eq_true_iff d).mpr ⟨hs1, hs2⟩
    obtain ⟨e, he⟩ := @jpgLoop_error_of_tag_outside d le count (ifd + 12 + 2) j
      Candidate.empty hj (by simp only [entryAt] at hout; omega)
    have hJ : getJpgResolution d = .error e := by
      simp only [getJpgResolution, hbo, isLittleEndian_marker, hifd, hcount, he, bind,
        Except.bind]
    exact getImageResolution_of_error ((tryBlock_of_isEXIF hE).trans (by rw [hJ]))

/-- C16, witness: the PNG file that gives 74 from its `pHYs` chunk, followed
by three stray bytes, gives the default 72 because the walk throws; the EXIF
file with 300/1 and a count of 4 whose fourth tag is outside the buffer
gives 72. -/
theorem late_failure_discards_witness :
    getPngResolution pngStray = some (.error .rangeError) ∧
    getImageResolution pngStray = some (.fin 72) ∧
    getImageResolution exifCountPastEnd = some (.fin 72) :=
  ⟨by decide,
   late_failure_discards.1 pngStray [8, 33, 54] 66 (by decide) (by decide) (by decide)
     (by decide),
   late_failure_discards.2 exifCountPastEnd true 16 4 3 (by decide) (by decide) (by decide)
     (by decide) (by decide) (by decide) (by decide)⟩

/-- C16, counterexample: the directory of `exifTruncated` declares 4 entries and
would end at byte 78 of a buffer of 68 bytes, so the declared entry count
runs past the end of the buffer; the two tag bytes of the fourth entry are
inside and are no tag of interest, no read fails, and the result is the 300
of the entries read before, not 72. -/
theorem count_past_end_counterexample :
    getUint16 exifTruncated 28 true = .ok 4 ∧
    exifTruncated.length = 68 ∧ entryAt 16 4 = 78 ∧
    getImageResolution exifTruncated = some (.fin 300) ∧
    getImageResolution exifTruncated ≠ some (.fin 72) := by
  decide!


/-! ## C17: both walks terminate -/

/-- More fuel does not change what the PNG loop returns. -/
theorem pngLoop_mono {d : DataView} :
    ∀ (fuel k pos : Nat) (c : Candidate) (r : Except JSError Candidate),
      pngLoop d fuel pos c = some r → pngLoop d (fuel + k) pos c = some r := by
  intro fuel
  induction fuel with
  | zero => intro k pos c r h; simp [pngLoop] at h
  | succ n ih =>
    intro k pos c r h
    rw [show n + 1 + k = (n + k) + 1 by omega, pngLoop]
    rw [pngLoop] at h
    by_cases hlt : pos < d.length
    · rw [if_pos hlt] at h ⊢
      cases hc : pngChunk d pos c with
      | error e => rw [hc] at h; exact h
      | ok pc =>
        obtain ⟨pos', c'⟩ := pc
        rw [hc] at h
        exact ih k pos' c' r h
    · rw [if_neg hlt] at h ⊢
      exact h

/-- The PNG loop is left within `ceil ((byteLength - pos) / 12) + 1` tests of its
condition. -/
theorem pngLoop_within {d : DataView} :
    ∀ (fuel pos : Nat) (c : Candidate), (d.length - pos + 11) / 12 < fuel →
      ∃ r, pngLoop d fuel pos c = some r := by
  intro fuel
  induction fuel with
  | zero => intro pos c h; omega
  | succ n ih =>
    intro pos c h
    rw [pngLoop]
    by_cases hlt : pos < d.length
    · rw [if_pos hlt]
      cases hc : pngChunk d pos c with
      | error e => exact ⟨_, rfl⟩
      | ok pc =>
        obtain ⟨pos', c'⟩ := pc
        have hp := (pngChunk_pos hc).1
        exact ih pos' c' (by omega)
    · rw [if_neg hlt]
      exact ⟨_, rfl⟩

/-- The PNG loop starts at most `ceil ((byteLength - pos) / 12)` iterations. -/
theorem pngIterations_le {d : DataView} :
    ∀ (fuel pos : Nat) (c : Candidate),
      pngIterations d fuel pos c ≤ (d.length - pos + 11) / 12 := by
  intro fuel
  induction fuel with
  | zero => intro pos c; simp [pngIterations]
  | succ n ih =>
    intro pos c
    rw [pngIterations]
    by_cases hlt : pos < d.length
    · rw [if_pos hlt]
      cases hc : pngChunk d pos c with
      | error e => simp only; omega
      | ok pc =>
        obtain ⟨pos', c'⟩ := pc
        have hp := (pngChunk_pos hc).1
        have := ih pos' c'
        simp only
        omega
    · rw [if_neg hlt]
      omega

theorem jpgLoop_add {d : DataView} {le : Bool} :
    ∀ (a b s : Nat) (c : Candidate),
      jpgLoop d le (a + b) s c = (jpgLoop d le a s c).bind (jpgLoop d le b (s + 12 * a)) := by
  intro a
  induction a with
  | zero => intro b s c; simp [jpgLoop, Except.bind]
  | succ a ih =>
    intro b s c
    rw [show a + 1 + b = (a + b) + 1 by omega, jpgLoop, jpgLoop]
    cases h1 : jpgEntry d le s c with
    | error e => simp [bind, Except.bind]
    | ok c1 =>
      simp only [bind, Except.bind]
      rw [ih b (s + 12) c1, show s + 12 + 12 * a = s + 12 * (a + 1) by ring]
      rfl

/-- C17: both walks terminate on every input. In `getPngResolution` an
iteration that does not throw moves the cursor forward by the chunk length
plus 12; from the start at 8 the loop starts at most
`ceil ((byteLength - 8) / 12)` iterations, it is left (by the cursor
reaching the buffer length or by a failing read) within one more test of its
condition, and `getPngResolution` returns or throws. In `getJpgResolution`
the count is at most 65535 and the loop runs `count` iterations, each moving
the entry position forward by exactly 12. -/
theorem walks_terminate :
    (∀ (d : DataView) (pos pos' : Nat) (c c' : Candidate),
      pngChunk d pos c = .ok (pos', c') →
      pos' = pos + (u32At d pos false + 12) ∧ pos + 12 ≤ pos') ∧
    (∀ (d : DataView) (fuel : Nat) (c : Candidate),
      pngIterations d fuel 8 c ≤ (d.length - 8 + 11) / 12) ∧
    (∀ (d : DataView) (c : Candidate), ∃ r, ∀ fuel,
      (d.length - 8 + 11) / 12 + 1 ≤ fuel → pngLoop d fuel 8 c = some r) ∧
    (∀ d : DataView, ∃ r, getPngResolution d = some r) ∧
    (∀ (d : DataView) (off count : Nat) (le : Bool),
      getUint16 d off le = .ok count → count ≤ 65535) ∧
    (∀ (d : DataView) (le : Bool) (start : Nat) (c : Candidate),
      jpgLoop d le 0 start c = .ok c) ∧
    (∀ (d : DataView) (le : Bool) (count start : Nat) (c : Candidate),
      jpgLoop d le (count + 1) start c =
        (jpgEntry d le start c).bind (jpgLoop d le count (start + 12))) ∧
    (∀ (d : DataView) (le : Bool) (a b start : Nat) (c : Candidate),
      jpgLoop d le (a + b) start c =
        (jpgLoop d le a start c).bind (jpgLoop d le b (start + 12 * a))) := by
  refine ⟨?_, ?_, ?_, ?_, ?_, ?_, ?_, ?_⟩
  · intro d pos pos' c c' h
    have := (pngChunk_pos h).1
    omega
  · intro d fuel c
    exact pngIterations_le fuel 8 c
  · intro d c
    obtain ⟨r, hr⟩ := @pngLoop_within d ((d.length - 8 + 11) / 12 + 1) 8 c (by omega)
    refine ⟨r, fun fuel hf => ?_⟩
    obtain ⟨k, rfl⟩ : ∃ k, fuel = (d.length - 8 + 11) / 12 + 1 + k :=
      ⟨fuel - ((d.length - 8 + 11) / 12 + 1), by omega⟩
    exact pngLoop_mono _ k 8 c r hr
  · intro d
    exact getPngResolution_returns d
  · intro d off count le h
    have h1 := (getUint16_ok_iff.mp h).2
    have h2 := u16At_lt d off le
    omega
  · intro d le start c
    rfl
  · intro d le count start c
    rfl
  · intro d le a b start c
    exact jpgLoop_add a b start c

/-- C17, witness: on the PNG file with the chunks `IHDR`, `pHYs`, `IEND` the
first iteration moves the cursor from 8 to 33 = 8 + 13 + 12, the loop runs 3
iterations, within the bound 5 for its 66 bytes; the count of the sample
EXIF directory is 3. -/
theorem walks_terminate_witness :
    (33 = 8 + (u32At png2835 8 false + 12) ∧ 8 + 12 ≤ 33) ∧
    pngIterations png2835 67 8 Candidate.empty = 3 ∧
    pngIterations png2835 67 8 Candidate.empty ≤ (png2835.length - 8 + 11) / 12 ∧
    (3 : Nat) ≤ 65535 :=
  ⟨walks_terminate.1 png2835 8 33 Candidate.empty Candidate.empty (by decide),
   by decide,
   walks_terminate.2.1 png2835 67 Candidate.empty,
   walks_terminate.2.2.2.2.1 exifLE 20 3 true (by decide)⟩

end GetPpi
